import Mathlib

/-!
Verification of the p115client repository against its natural-language
specification.

The development shallowly embeds the parts of the code base that the claims
C1 to C10 talk about:

* the hand-rolled RSA/XOR codec of the tiny redirect gateway
  (examples/web_115_302_tiny.py: acc_step, bytes_xor, gen_key,
  pad_pkcs1_v1_5, xor, encrypt, decrypt) together with its LRUDict cache;
* the local-mirror sync engine (modules/p115updatedb: updatedb.py and
  query.py: select_mtime_groups, diff_dir, updatedb_one, kill_items,
  iterdir, select_na_ids);
* the request-validation and signing layer of the full redirect gateway
  (examples/web_115_302.py: check_sign and the head of get_download_url);
* the WebDAV browse gateway (examples/dav_115_302.py: normalize_attr url
  construction, get_url, get_page dispatch);
* the served-from-database gateway (examples/servedb.py:
  FileResource.get_content) together with the sqlite schema it runs on.

Machine integers do not occur (Python ints are unbounded); bytes are
modelled as lists of naturals below 256, byte strings as `List Nat`,
SQLite tables as association lists, and raised Python exceptions as
`Except`/`Option` results.  All definitions are executable.
-/

set_option maxRecDepth 4000

namespace P115

/-! ### Python string primitives

Helpers mirroring the Python `str` methods used by the gateways.  They are
modelled for ASCII data, which is the alphabet all validated inputs
(pickcodes, hex digests, decimal ids) live in.
-/

/-- ASCII whitespace, as stripped by Python `str.strip()`. -/
def pyIsSpace (c : Char) : Bool :=
  c = ' ' ∨ c = '\t' ∨ c = '\n' ∨ c = '\r' ∨ c.toNat = 11 ∨ c.toNat = 12

/-- Python `str.strip()`: drop leading and trailing whitespace. -/
def pyStrip (s : String) : String :=
  String.mk (((s.data.dropWhile pyIsSpace).reverse.dropWhile pyIsSpace).reverse)

/-- Lower-case one ASCII character. -/
def lowerChar (c : Char) : Char :=
  if c.isUpper then Char.ofNat (c.toNat + 32) else c

/-- Upper-case one ASCII character. -/
def upperChar (c : Char) : Char :=
  if c.isLower then Char.ofNat (c.toNat - 32) else c

/-- Python `str.lower()` on ASCII data. -/
def pyLower (s : String) : String := String.mk (s.data.map lowerChar)

/-- Python `str.upper()` on ASCII data. -/
def pyUpper (s : String) : String := String.mk (s.data.map upperChar)

/-- Python `str.isalnum()` (ASCII): nonempty and every character alphanumeric. -/
def pyIsAlnum (s : String) : Bool :=
  s ≠ "" ∧ s.data.all Char.isAlphanum

/-- Python `str.isdecimal()` (ASCII): nonempty and every character a digit. -/
def pyIsDecimal (s : String) : Bool :=
  s ≠ "" ∧ s.data.all Char.isDigit

/-- Hexadecimal digit test, matching Python `string.hexdigits`. -/
def isHexChar (c : Char) : Bool :=
  c.isDigit ∨ ('a' ≤ c ∧ c ≤ 'f') ∨ ('A' ≤ c ∧ c ≤ 'F')

/-- Python `s.strip(hexdigits) == ""`: every character is a hex digit. -/
def pyAllHex (s : String) : Bool := s.data.all isHexChar

/-- Python `s.strip(digits) == ""`: every character is a decimal digit. -/
def pyAllDigits (s : String) : Bool := s.data.all Char.isDigit

/-- Python `str.startswith`. -/
def pyStartsWith (s p : String) : Bool := p.data.isPrefixOf s.data

/-- Python `int(s)` on a digit string. -/
def strToNat (s : String) : Nat :=
  s.data.foldl (fun a c => a * 10 + (c.toNat - 48)) 0

end P115

namespace P115.Tiny302

/-!
### Custom remote-drive crypto (examples/web_115_302_tiny.py, lines 116-187)

Bytes are `Nat` values below 256; byte strings are `List Nat`.
-/

/-- The fixed 144-byte key-transform table `G_kts` of the tiny gateway,
reproduced byte for byte. -/
def G_kts : List Nat :=
  [240, 229, 105, 174, 191, 220, 191, 138, 26, 69, 232, 190, 125, 166, 115,
   184, 222, 143, 231, 196, 69, 218, 134, 196, 155, 100, 139, 20, 106, 180,
   241, 170, 56, 1, 53, 158, 38, 105, 44, 134, 0, 107, 79, 165, 54, 52, 98,
   166, 42, 150, 104, 24, 242, 74, 253, 189, 107, 151, 143, 77, 143, 137,
   19, 183, 108, 142, 147, 237, 14, 13, 72, 62, 215, 47, 136, 216, 254, 254,
   126, 134, 80, 149, 79, 209, 235, 131, 38, 52, 219, 102, 123, 156, 126,
   157, 122, 129, 50, 234, 182, 51, 222, 58, 169, 89, 52, 102, 59, 170, 186,
   129, 96, 72, 185, 213, 129, 156, 248, 108, 132, 119, 255, 84, 120, 38,
   95, 190, 232, 30, 54, 159, 52, 128, 92, 69, 44, 155, 118, 213, 27, 143,
   204, 195, 184, 245]

/-- The literal constant named `RSA_e` in the source.  Despite its name it
is the 1024-bit RSA modulus of the vendor protocol. -/
def RSA_e : Nat :=
  0x8686980c0f5a24c4b9d43020cd2c22703ff3f450756529058b1cf88f09b8602136477198a6e2683149659bd122c33592fdb5ad47944ad1ea4d36c6b172aad6338c3bb6ac6227502d010993ac967d1aef00f0c8e038de2e4d3bc2ec368af2e9f10a6f1eda4f7262f136420c07c331b871bf139f74f3010e3c4fe57df3afb71683

/-- The literal constant named `RSA_n` in the source.  Despite its name it
is the public exponent 0x10001. -/
def RSA_n : Nat := 0x10001

/-- The 4-byte static XOR key of the first `encrypt` pass. -/
def key4 : List Nat := [0x8d, 0xa5, 0xa5, 0x8d]

/-- The 12-byte static XOR key of the second `encrypt` pass. -/
def key12 : List Nat :=
  [0x78, 0x06, 0xad, 0x4c, 0x33, 0x86, 0x5d, 0x18, 0x4c, 0x01, 0x3f, 0x46]

/-- Fueled worker for `acc_step`.  The fuel only guards against `step = 0`,
which no call site uses; each recursive call advances `start` by `step`. -/
def accStepGo : Nat → Nat → Nat → Nat → List (Nat × Nat × Nat)
  | 0, _, _, _ => []
  | fuel + 1, start, stop, step =>
    if start + step < stop then
      (start, start + step, step) :: accStepGo fuel (start + step) stop step
    else if start < stop then
      [(start, stop, stop - start)]
    else
      []

/-- Source `acc_step(start, stop, step)`: the chunk boundaries
`(chunk_start, chunk_end, chunk_len)` driving every block loop, with a
final partial chunk if the range does not divide evenly. -/
def acc_step (start stop step : Nat) : List (Nat × Nat × Nat) :=
  accStepGo (stop - start + 1) start stop step

/-- Big-endian integer value of a byte string, Python
`int.from_bytes(-, "big")`. -/
def fromBytes (l : List Nat) : Nat :=
  l.foldl (fun acc b => acc * 256 + b) 0

/-- Big-endian byte string of width `n` for an integer, Python
`int.to_bytes(x, n, "big")`. -/
def toBytes (x : Nat) : Nat → List Nat
  | 0 => []
  | n + 1 => toBytes (x / 256) n ++ [x % 256]

/-- Source `bytes_xor(v1, v2)`: XOR of the big-endian values, re-encoded at
the width of `v1`. -/
def bytes_xor (v1 v2 : List Nat) : List Nat :=
  toBytes (Nat.xor (fromBytes v1) (fromBytes v2)) v1.length

/-- Source `xor(src, key)`: a leading chunk of `len(src) mod 4` bytes is
XOR-ed against the key head, then the rest is processed in key-sized chunks
via `acc_step`. -/
def xor (src key : List Nat) : List Nat :=
  let i := src.length % 4
  let init := if i ≠ 0 then bytes_xor (src.take i) (key.take i) else []
  (acc_step i src.length key.length).foldl
    (fun acc c => acc ++ bytes_xor ((src.drop c.1).take (c.2.1 - c.1)) (key.take c.2.2))
    init

/-- Source `gen_key(rand_key, sk_len)`: derive an `sk_len`-byte XOR key from
a random seed by the sliding-index schedule `length -= sk_len; index +=
sk_len`.  Out-of-range table or seed access raises IndexError in Python and
yields `none` here. -/
def gen_key (rand_key : List Nat) (sk_len : Nat) : Option (List Nat) :=
  (List.range sk_len).foldlM
    (fun acc i => do
      let rk ← rand_key.get? i
      let gi ← G_kts.get? (sk_len * i)
      let gl ← G_kts.get? (sk_len * (sk_len - 1) - sk_len * i)
      let x := (rk + gi) % 256
      pure (acc ++ [Nat.xor gl x]))
    []

/-- Source `pad_pkcs1_v1_5(message)`: the big-endian value of
`00 ‖ 02 × (126 - len) ‖ 00 ‖ message`. -/
def pad_pkcs1_v1_5 (message : List Nat) : Nat :=
  fromBytes ([0] ++ List.replicate (126 - message.length) 2 ++ [0] ++ message)

/-- Fueled square-and-multiply; the fuel `e + 1` dominates the number of
halvings of `e`. -/
def powModGo : Nat → Nat → Nat → Nat → Nat
  | 0, _, _, m => 1 % m
  | fuel + 1, b, e, m =>
    if e = 0 then 1 % m
    else
      let r := powModGo fuel (b * b % m) (e / 2) m
      if e % 2 = 1 then r * b % m else r

/-- Modular exponentiation `pow(b, e, m)`. -/
def powMod (b e m : Nat) : Nat := powModGo (e + 1) b e m

/-- Standard base64 alphabet as ASCII codes. -/
def b64Alphabet : List Nat :=
  (List.range 26).map (· + 65) ++ (List.range 26).map (· + 97) ++
    (List.range 10).map (· + 48) ++ [43, 47]

/-- Character of a 6-bit group. -/
def b64chr (n : Nat) : Nat := b64Alphabet.getD n 0

/-- Python `base64.b64encode` on byte strings (result as ASCII codes). -/
def b64encode : List Nat → List Nat
  | a :: b :: c :: rest =>
    let w := a * 65536 + b * 256 + c
    b64chr (w / 262144) :: b64chr (w / 4096 % 64) :: b64chr (w / 64 % 64) ::
      b64chr (w % 64) :: b64encode rest
  | [a, b] =>
    let w := a * 65536 + b * 256
    [b64chr (w / 262144), b64chr (w / 4096 % 64), b64chr (w / 64 % 64), 61]
  | [a] =>
    let w := a * 65536
    [b64chr (w / 262144), b64chr (w / 4096 % 64), 61, 61]
  | [] => []

/-- Index of an ASCII code in the base64 alphabet. -/
def b64idx (c : Nat) : Nat :=
  if 65 ≤ c ∧ c ≤ 90 then c - 65
  else if 97 ≤ c ∧ c ≤ 122 then c - 71
  else if 48 ≤ c ∧ c ≤ 57 then c + 4
  else if c = 43 then 62
  else if c = 47 then 63
  else 0

/-- Python `base64.b64decode` on well-formed input (ASCII codes in, bytes
out); 61 is the pad character. -/
def b64decode : List Nat → List Nat
  | a :: b :: c :: d :: rest =>
    if d = 61 then
      if c = 61 then
        [b64idx a * 4 + b64idx b / 16]
      else
        let w := b64idx a * 4096 + b64idx b * 64 + b64idx c
        [w / 1024, w / 4 % 256]
    else
      let w := b64idx a * 262144 + b64idx b * 4096 + b64idx c * 64 + b64idx d
      w / 65536 :: w / 256 % 256 :: w % 256 :: b64decode rest
  | _ => []

/-- Fueled bit-length worker. -/
def bitLenGo : Nat → Nat → Nat
  | 0, _ => 0
  | fuel + 1, n => if n = 0 then 0 else bitLenGo fuel (n / 2) + 1

/-- Python `int.bit_length()`. -/
def bitLen (n : Nat) : Nat := bitLenGo (n + 1) n

/-- Python `b[b.index(0) + 1:]`: everything after the first zero byte, or
`none` (ValueError) when there is no zero byte. -/
def dropThroughZero : List Nat → Option (List Nat)
  | [] => none
  | 0 :: rest => some rest
  | _ :: rest => dropThroughZero rest

/-- Source `encrypt(data)`: two fixed XOR passes (forward with `key4`, then
on the reversed buffer with `key12`) behind a 16-byte zero prefix, PKCS#1
v1.5 style padding of each 117-byte chunk, RSA exponentiation by `RSA_n`
modulo `RSA_e` into 128-byte blocks, base64 of the concatenation. -/
def encrypt (data : List Nat) : List Nat :=
  let xor_text := List.replicate 16 0 ++ xor ((xor data key4).reverse) key12
  let cipher :=
    (acc_step 0 xor_text.length 117).foldl
      (fun acc c =>
        acc ++
          toBytes
            (powMod (pad_pkcs1_v1_5 ((xor_text.drop c.1).take (c.2.1 - c.1)))
              RSA_n RSA_e)
            128)
      []
  b64encode cipher

/-- The per-128-byte-block half of `decrypt`: exponentiation by `RSA_n`
modulo `RSA_e`, minimal big-endian re-encoding, and stripping through the
first zero byte of each block. -/
def decryptAssemble (cipher : List Nat) : Option (List Nat) :=
  (acc_step 0 cipher.length 128).foldlM
    (fun acc c => do
      let p := powMod (fromBytes ((cipher.drop c.1).take (c.2.1 - c.1))) RSA_n RSA_e
      let b := toBytes p ((bitLen p + 7) / 8)
      let tail ← dropThroughZero b
      pure (acc ++ tail))
    []

/-- The XOR half of `decrypt`: derive the message key from the first 16
bytes via `gen_key`, XOR the remainder, reverse, and XOR with `key4`. -/
def decryptStage (m : List Nat) : Option (List Nat) := do
  let key_l ← gen_key (m.take 16) 12
  pure (xor ((xor (m.drop 16) key_l).reverse) key4)

/-- Source `decrypt(cipher_data)`: base64 decode, per-block RSA and padding
strip, then the seed-keyed XOR unscrambling.  `none` models a raised
ValueError/IndexError. -/
def decrypt (cipher_data : List Nat) : Option (List Nat) := do
  let data ← decryptAssemble (b64decode cipher_data)
  decryptStage data

/-- Well-formed byte string: every element is a byte. -/
def WfBytes (l : List Nat) : Prop := ∀ b ∈ l, b < 256

/-- Proof-side restatement of the chunk loop of `xor`: process the suffix in
chunks of `key.length` bytes, the final chunk partial. -/
def xorTail (key : List Nat) (s : List Nat) : List Nat :=
  if h : s = [] ∨ key.length = 0 then []
  else
    bytes_xor (s.take key.length) (key.take (min key.length s.length)) ++
      xorTail key (s.drop key.length)
termination_by s.length
decreasing_by
  simp only [not_or] at h
  have h1 : 0 < key.length := Nat.pos_of_ne_zero h.2
  have h2 : 0 < s.length := List.length_pos.mpr h.1
  simpa using Nat.sub_lt h2 h1

end P115.Tiny302

namespace P115.UpdateDB

/-!
### Local metadata mirror (modules/p115updatedb)

A row of the `data` table (updatedb.py, initdb).  `updated_at` is a
trigger-maintained timestamp that no claim depends on and is omitted.
-/

structure Row where
  id : Nat
  parent_id : Nat
  pickcode : String
  sha1 : String
  name : String
  size : Nat
  is_dir : Bool
  type : Nat
  ctime : Nat
  mtime : Nat
  is_collect : Bool
  is_alive : Bool
deriving Repr, DecidableEq

/-- A SQLite `INSERT ... ON CONFLICT(id) DO UPDATE` of one row, the
semantics of the external `sqlitetools.upsert_items` helper for a single
item: replace the row with the same primary key, or append a new row. -/
def upsertOne (db : List Row) (r : Row) : List Row :=
  if db.any (fun x => x.id == r.id) then
    db.map (fun x => if x.id == r.id then r else x)
  else
    db ++ [r]

/-- Source `upsert_items(con, items)` against the `data` table. -/
def upsert_items (db : List Row) (items : List Row) : List Row :=
  items.foldl upsertOne db

/-- Source `kill_items(con, ids)` (updatedb.py, lines 234-253):
`UPDATE data SET is_alive=0 WHERE id IN (...)`. -/
def kill_items (db : List Row) (ids : List Nat) : List Row :=
  db.map (fun x => if x.id ∈ ids then { x with is_alive := false } else x)

/-- One mutation of the `data` table performed by the sync engine: every
write path of `updatedb_one`, `updatedb_tree` and `updatedb` is either an
upsert of rows or a `kill_items` soft delete. -/
inductive SyncOp where
  | upsert (items : List Row)
  | kill (ids : List Nat)

/-- Apply a sequence of sync-engine mutations. -/
def applySyncOps (db : List Row) (ops : List SyncOp) : List Row :=
  ops.foldl
    (fun d op =>
      match op with
      | SyncOp.upsert items => upsert_items d items
      | SyncOp.kill ids => kill_items d ids)
    db

/-- The `(id, mtime)` tuples produced by
`iter_descendants_dfs(con, parent_id, fields=("mtime", "id"), max_depth=1,
to_dict=False)` (query.py, lines 565-775): the SQL is
`SELECT id, mtime FROM data WHERE parent_id=:parent_id AND is_alive`;
note that the requested field tuple is reordered to the canonical `FIELDS`
order, so `id` comes first in each emitted tuple. -/
def dataPairs (db : List Row) (parent_id : Nat) : List (Nat × Nat) :=
  (db.filter (fun r => r.parent_id == parent_id && r.is_alive)).map
    (fun r => (r.id, r.mtime))

/-- Insert one pair into a Python-dict-of-sets accumulator (insertion
order preserved, values appended). -/
def groupInsert (acc : List (Nat × List Nat)) (kv : Nat × Nat) :
    List (Nat × List Nat) :=
  if acc.any (fun g => g.1 == kv.1) then
    acc.map (fun g => if g.1 == kv.1 then (g.1, g.2 ++ [kv.2]) else g)
  else
    acc ++ [(kv.1, [kv.2])]

/-- The external `iterutils.group_collect(it, factory=set)`: collect
`(key, value)` pairs into a dict of groups keyed by the first component. -/
def groupCollect (l : List (Nat × Nat)) : List (Nat × List Nat) :=
  l.foldl groupInsert []

/-- Insertion into a list kept sorted by key, descending. -/
def insertSortedDesc (x : Nat × List Nat) :
    List (Nat × List Nat) → List (Nat × List Nat)
  | [] => [x]
  | y :: ys => if y.1 ≤ x.1 then x :: y :: ys else y :: insertSortedDesc x ys

/-- Python `sorted(d.items(), reverse=True)` on a dict with distinct keys. -/
def sortPairsDesc (l : List (Nat × List Nat)) : List (Nat × List Nat) :=
  l.foldr insertSortedDesc []

/-- Source `select_mtime_groups(con, parent_id, tree=False)` (query.py,
lines 917-936), the shallow variant used by `updatedb_one`: group the
direct live children by the first tuple component and sort descending.
It returns this list of pairs — not a `(remains, groups)` 2-tuple. -/
def select_mtime_groups (db : List Row) (parent_id : Nat) :
    List (Nat × List Nat) :=
  sortPairsDesc (groupCollect (dataPairs db parent_id))

/-- Python exceptions surfaced by the embedded fragments. -/
inductive PyErr where
  | valueError
  | typeError
  | busy
  | fileNotFound
  | notADirectory
  | operationalError
  | fetchError
deriving Repr, DecidableEq

/-- Source `diff_dir(con, client, id)` (updatedb.py, lines 398-467).  The
function starts `select_mtime_groups` on a thread, issues the first listing
page, and then executes `remains, groups = future.result()`.  The result of
`select_mtime_groups` is the plain list of `(mtime-key, id-set)` pairs, so:

* with any number of groups other than two, the tuple unpacking raises
  `ValueError` (too many / not enough values to unpack);
* with exactly two groups, `remains` is bound to the first pair (a tuple,
  hence truthy), `his_it = iter(groups)` iterates the second pair, and
  `his_mtime, his_ids = next(his_it)` tries to unpack its integer first
  component, raising `TypeError`.

Either way the function raises before producing a diff; the matching loop
after the unpack is unreachable.  The remote listing argument is therefore
not consulted. -/
def diff_dir (db : List Row) (parent_id : Nat) (_remote : List Row) :
    Except PyErr (List Row × List Nat) :=
  match select_mtime_groups db parent_id with
  | [_, _] => Except.error PyErr.typeError
  | _ => Except.error PyErr.valueError

/-- Source `updatedb_one(client, dbfile, id)` (updatedb.py, lines 546-569):
run `diff_dir`, then apply the upserts and the kills in one transaction.
An exception from `diff_dir` propagates and the transaction never runs. -/
def updatedb_one (db : List Row) (parent_id : Nat) (remote : List Row) :
    Except PyErr (List Row × List Nat × List Row) :=
  match diff_dir db parent_id remote with
  | Except.error e => Except.error e
  | Except.ok (to_upsert, to_remove) =>
    Except.ok (to_upsert, to_remove, kill_items (upsert_items db to_upsert) to_remove)

/-- Worker of the `iterate()` generator inside `iterdir` (updatedb.py,
lines 357-395) for a single listing page: each raw entry is checked against
the `seen` id set (a repeat raises `BusyOSError`), then recorded; directory
entries are queued and flushed before the first file entry whose `mtime` is
no greater.  Every yielded attr is paired with the `seen` set as of its
yield, because `diff_dir` consults the live set while consuming the
generator. -/
def iterateGo (seen : List Nat) (dirs : List Row)
    (acc : List (Row × List Nat)) : List Row →
    Except PyErr (List (Row × List Nat))
  | [] => Except.ok (acc ++ dirs.map (fun d => (d, seen)))
  | r :: rest =>
    if r.id ∈ seen then
      Except.error PyErr.busy
    else
      let seen2 := seen ++ [r.id]
      if r.is_dir then
        iterateGo seen2 (dirs ++ [r]) acc rest
      else
        let flushed := dirs.takeWhile (fun d => r.mtime ≤ d.mtime)
        let remaining := dirs.dropWhile (fun d => r.mtime ≤ d.mtime)
        iterateGo seen2 remaining
          (acc ++ flushed.map (fun d => (d, seen2)) ++ [(r, seen2)]) rest

/-- The listing iterator of `iterdir` over one pull. -/
def iterate (raws : List Row) : Except PyErr (List (Row × List Nat)) :=
  iterateGo [] [] [] raws

/-- Outcome of one directory task inside the `updatedb` breadth-first
loop. -/
inductive RunOutcome where
  | ok (ups : List Row) (rms : List Nat)
  | fileNotFound
  | notADirectory
  | busy

/-- The exception dispatch of one `updatedb` loop iteration (updatedb.py,
lines 764-787): `FileNotFoundError` kills the directory record and skips,
`NotADirectoryError` skips, `BusyOSError` re-queues the same id.

Modelled from the spec: the repository file `p115updatedb/util.py` that
defines the `bfs_gen` queue generator is not in the source tree; per the
spec a *Busy* signal "causes the same directory to be re-queued for
another attempt rather than abandoned", realised here as appending `id`
back to the pending queue, which is what `send(id)` does on the generator.
-/
def updatedb_step (db : List Row) (queue : List Nat) (id : Nat)
    (outcome : RunOutcome) : List Row × List Nat :=
  match outcome with
  | RunOutcome.ok _ _ => (db, queue)
  | RunOutcome.fileNotFound => (kill_items db [id], queue)
  | RunOutcome.notADirectory => (db, queue)
  | RunOutcome.busy => (db, queue ++ [id])

/-- The `(id, parent_id)` map of live rows,
`SELECT id, parent_id FROM data WHERE is_alive` (query.py,
`select_na_ids`). -/
def aliveParentPairs (db : List Row) : List (Nat × Nat) :=
  (db.filter (fun r => r.is_alive)).map (fun r => (r.id, r.parent_id))

/-- Python `d[k]` on the id-to-parent dict, `none` for `KeyError`. -/
def lookupPid (d : List (Nat × Nat)) (k : Nat) : Option Nat :=
  (d.find? (fun kv => kv.1 == k)).map (fun kv => kv.2)

/-- One ancestor walk of `select_na_ids` (query.py, lines 876-914),
starting from `temp = [k]`: repeatedly replace `k` by its parent; a
`KeyError` classifies the accumulated chain as dangling, a parent of `0`
(the while-else) or a memoised ok/na hit classifies it accordingly.  The
fuel bounds the chain length; Python has no such bound and would diverge on
a cyclic chain, which `none` models. -/
def walkOne (d : List (Nat × Nat)) :
    Nat → Nat → List Nat → Finset Nat → Finset Nat →
    Option (Finset Nat × Finset Nat)
  | 0, _, _, _, _ => none
  | fuel + 1, k, temp, ok, na =>
    match lookupPid d k with
    | none => some (ok, na ∪ temp.toFinset)
    | some p =>
      if p = 0 then some (ok ∪ temp.toFinset, na)
      else if p ∈ ok then some (ok ∪ temp.toFinset, na)
      else if p ∈ na then some (ok, na ∪ temp.toFinset)
      else walkOne d fuel p (temp ++ [p]) ok na

/-- Source `select_na_ids(con)` (query.py, lines 876-914): seed the ok set
with the soft-deleted ids, then walk every live row's ancestor chain with
memoisation, collecting the dangling classification.  Returns the `na_ids`
set; `none` models nontermination of the unbounded Python walk. -/
def select_na_ids (db : List Row) : Option (Finset Nat) :=
  let okInit := ((db.filter (fun r => !r.is_alive)).map (fun r => r.id)).toFinset
  let d := aliveParentPairs db
  let res := d.foldlM
    (fun (st : Finset Nat × Finset Nat) kv =>
      walkOne d (d.length + 1) kv.1 [kv.1] st.1 st.2)
    (okInit, (∅ : Finset Nat))
  res.map (fun st => st.2)

/-- Ground truth: the ancestor chain of `k` inside the live map `d`
reaches the root parent `0`. -/
inductive ReachesRoot (d : List (Nat × Nat)) : Nat → Prop where
  | base (k : Nat) : lookupPid d k = some 0 → ReachesRoot d k
  | step (k p : Nat) : lookupPid d k = some p → p ≠ 0 → ReachesRoot d p →
      ReachesRoot d k

/-- Ground truth: the ancestor chain of `k` runs into a parent id that is
absent from the live map (a dangling chain). -/
inductive Dangling (d : List (Nat × Nat)) : Nat → Prop where
  | base (k p : Nat) : lookupPid d k = some p → p ≠ 0 → lookupPid d p = none →
      Dangling d k
  | step (k p : Nat) : lookupPid d k = some p → p ≠ 0 → Dangling d p →
      Dangling d k

/-- Ground truth: `k` is `x` itself or a (transitive) descendant of `x`
along `parent_id`. -/
inductive DescendantOf (d : List (Nat × Nat)) (x : Nat) : Nat → Prop where
  | refl : DescendantOf d x x
  | step (k p : Nat) : lookupPid d k = some p → DescendantOf d x p →
      DescendantOf d x k

/-- Classification ground truth: a live id whose chain reaches the root. -/
def GoodId (d : List (Nat × Nat)) (k : Nat) : Prop :=
  k ∈ d.map Prod.fst ∧ ReachesRoot d k

/-- Classification ground truth: a live id with a dangling chain, or the
absent parent id itself (which the walk also pushes and collects). -/
def BadId (d : List (Nat × Nat)) (p0 k : Nat) : Prop :=
  (k ∈ d.map Prod.fst ∧ Dangling d k) ∨ k = p0

end P115.UpdateDB

namespace P115.Web302

/-!
### Full redirect gateway (examples/web_115_302.py, lines 1505-1591)

The validation and signing head of the `get_download_url` request handler.
The SHA-1 digest and the URL percent-decoder are framework primitives and
enter the model as abstract function parameters.
-/

/-- The query parameters of one request. -/
structure Req302 where
  pickcode : String
  id : String
  sha1 : String
  path : String
  path2 : String
  sign : String
  t : Int
deriving Repr, DecidableEq

/-- How the handler leaves its validation phase: an immediate HTTP
response, or resolution of the chosen key kind. -/
inductive Outcome302 where
  | response (status : Nat)
  | usePickcode (pc : String)
  | resolveById (id : String)
  | resolveBySha1 (s : String)
  | resolveByPath (v : String)
deriving Repr, DecidableEq

/-- Source `check_sign(value)` (lines 1540-1546): with no token configured
requests pass; otherwise a mismatched signature answers 403 and a positive,
already reached expiry timestamp answers 401. -/
def check_sign (token : String) (sha1hex : String → String) (sign : String)
    (t : Int) (now : Int) (value : String) : Option Nat :=
  if token = "" then none
  else if sign ≠ sha1hex ("302@115-" ++ token ++ "-" ++ toString t ++ "-" ++ value) then
    some 403
  else if 0 < t ∧ t ≤ now then some 401
  else none

/-- The head of `get_download_url` (lines 1548-1571): pick the first
supplied key in priority order pickcode > id > sha1 > path/path2, check the
signature on it, then check its shape. -/
def get_download_url (token : String) (sha1hex : String → String)
    (unquote : String → String) (now : Int) (q : Req302) : Outcome302 :=
  let pickcode := pyLower (pyStrip q.pickcode)
  if pickcode ≠ "" then
    match check_sign token sha1hex q.sign q.t now pickcode with
    | some s => Outcome302.response s
    | none =>
      if ¬ pyIsAlnum pickcode then Outcome302.response 400
      else Outcome302.usePickcode pickcode
  else
    let idv := pyStrip q.id
    if idv ≠ "" then
      match check_sign token sha1hex q.sign q.t now idv with
      | some s => Outcome302.response s
      | none =>
        if pyStartsWith idv "0" ∨ ¬ pyIsDecimal idv then Outcome302.response 400
        else Outcome302.resolveById idv
    else
      let sha1v := pyUpper (pyStrip q.sha1)
      if sha1v ≠ "" then
        match check_sign token sha1hex q.sign q.t now sha1v with
        | some s => Outcome302.response s
        | none =>
          if sha1v.length ≠ 40 ∨ ¬ pyAllHex sha1v then Outcome302.response 400
          else Outcome302.resolveBySha1 sha1v
      else
        let value := if unquote q.path ≠ "" then unquote q.path else q.path2
        if value = "" then Outcome302.response 400
        else
          match check_sign token sha1hex q.sign q.t now value with
          | some s => Outcome302.response s
          | none => Outcome302.resolveByPath value

/-- The value the handler signs: the first supplied of pickcode, id, sha1,
path/path2, after the same normalisation the handler applies. -/
def firstValue (unquote : String → String) (q : Req302) : String :=
  let pickcode := pyLower (pyStrip q.pickcode)
  if pickcode ≠ "" then pickcode
  else
    let idv := pyStrip q.id
    if idv ≠ "" then idv
    else
      let sha1v := pyUpper (pyStrip q.sha1)
      if sha1v ≠ "" then sha1v
      else if unquote q.path ≠ "" then unquote q.path else q.path2

end P115.Web302

namespace P115.Tiny302

/-!
### Tiny gateway request validation (examples/web_115_302_tiny.py,
lines 400-456)

The private-tree branch of the `index` route handler (`share_code` empty).
A raised `ValueError` is mapped to HTTP 400 by the installed exception
handler (lines 254-267).
-/

/-- How the tiny handler leaves its validation phase. -/
inductive TinyOutcome where
  | badRequest
  | usePickcode (pc : String)
  | sha1Search (s : String)
  | idLookup (n : Nat)
  | nameSearch (n : String)
  | notFound
deriving Repr, DecidableEq

/-- The validation of the `index` route for the private tree: an explicit
`pickcode` must have length 17 (nothing else is checked), an explicit
`sha1` must be 40 hex characters, an integer `id` is used as is, and a bare
query string or route name is classified by length and alphabet, digits
being parsed as an id (leading zeros included). -/
def tiny_index (pickcode sha1 : String) (id : Nat) (query name : String) :
    TinyOutcome :=
  if pickcode ≠ "" then
    if pickcode.length ≠ 17 then TinyOutcome.badRequest
    else TinyOutcome.usePickcode (pyLower pickcode)
  else if sha1 ≠ "" then
    if sha1.length ≠ 40 ∨ ¬ pyAllHex sha1 then TinyOutcome.badRequest
    else TinyOutcome.sha1Search (pyUpper sha1)
  else if id ≠ 0 then
    TinyOutcome.idLookup id
  else if query ≠ "" then
    if query.length = 17 ∧ pyIsAlnum query then TinyOutcome.usePickcode (pyLower query)
    else if query.length = 40 ∧ pyAllHex query then TinyOutcome.sha1Search (pyUpper query)
    else if pyAllDigits query then TinyOutcome.idLookup (strToNat query)
    else TinyOutcome.badRequest
  else if name ≠ "" then
    if name.length = 17 ∧ pyIsAlnum name then TinyOutcome.usePickcode (pyLower name)
    else if name.length = 40 ∧ pyAllHex name then TinyOutcome.sha1Search (pyUpper name)
    else if pyAllDigits name then TinyOutcome.idLookup (strToNat name)
    else TinyOutcome.nameSearch name
  else
    TinyOutcome.notFound

/-!
### LRUDict (examples/web_115_302_tiny.py, lines 197-237)

A Python dict subclass with insertion order; modelled as an association
list ordered oldest first, as `next(iter(self))` is the oldest key.
-/

/-- The bounded cache dictionary. -/
structure LRUDict (K V : Type) where
  maxsize : Int
  entries : List (K × V)

/-- Python `dict.pop(key, None)`: remove the entry with the given key. -/
def lruEraseKey [DecidableEq K] (l : List (K × V)) (k : K) : List (K × V) :=
  l.filter (fun kv => !(kv.1 == k))

/-- The `while len(self) > maxsize: pop(next(iter(self)))` loop of
`clean`: drop oldest entries until the bound holds.  The fuel is the
starting length, which bounds the number of pops. -/
def cleanGo : Nat → Nat → List (K × V) → List (K × V)
  | 0, _, l => l
  | fuel + 1, maxsize, l =>
    if maxsize < l.length then cleanGo fuel maxsize l.tail else l

/-- Source `LRUDict.clean`: only a positive `maxsize` bounds the size. -/
def lruClean (d : LRUDict K V) : LRUDict K V :=
  if 0 < d.maxsize then
    { d with entries := cleanGo d.entries.length d.maxsize.toNat d.entries }
  else d

/-- Source `LRUDict.__setitem__`: pop the key, insert at the new end,
clean. -/
def lruSet [DecidableEq K] (d : LRUDict K V) (k : K) (v : V) : LRUDict K V :=
  lruClean { d with entries := lruEraseKey d.entries k ++ [(k, v)] }

/-- Source `LRUDict.setdefault`: the dict primitive keeps an existing entry
in place and returns its value, otherwise inserts the default at the end;
then clean. -/
def lruSetdefault [DecidableEq K] (d : LRUDict K V) (k : K) (v : V) :
    V × LRUDict K V :=
  match d.entries.find? (fun kv => kv.1 == k) with
  | some kv => (kv.2, lruClean d)
  | none => (v, lruClean { d with entries := d.entries ++ [(k, v)] })

/-- Source `LRUDict.update`: every pair of every positional mapping and of
the keyword pairs goes through pop-then-`__setitem__`, and a final clean
runs. -/
def lruUpdate [DecidableEq K] (d : LRUDict K V) (args : List (List (K × V)))
    (pairs : List (K × V)) : LRUDict K V :=
  let d1 := args.foldl
    (fun acc arg => arg.foldl (fun a kv => lruSet a kv.1 kv.2) acc) d
  let d2 := pairs.foldl (fun a kv => lruSet a kv.1 kv.2) d1
  lruClean d2

end P115.Tiny302

namespace P115.Dav302

/-!
### WebDAV browse gateway (examples/dav_115_302.py)

The `web` proxy selection of `get_url` (lines 1676-1701), the url
advertisement of `normalize_attr` (lines 1446-1499), and the dispatch of
`get_page` (lines 1771-1792).
-/

/-- The size ceiling the spec attaches to the web-API variant. -/
def WEB_SIZE_LIMIT : Nat := 1024 * 1024 * 115

/-- A mirror attribute record as consumed by `normalize_attr`/`get_url`. -/
structure DavAttr where
  pickcode : String
  size : Nat
  violated : Bool
  is_directory : Bool
deriving Repr, DecidableEq

/-- Python `get_arg(name) not in (None, "0", "false")`, the test used for
both the `web` and the `image` argument. -/
def argTruthy (arg : Option String) : Bool :=
  !(arg = none ∨ arg = some "0" ∨ arg = some "false")

/-- The private-tree file branch of `normalize_attr` (lines 1484-1497):
the advertised url carries `&web=true` exactly when the row is violated and
its size is strictly below 115 MiB.  Returns the url and that flag. -/
def normalize_attr_file_url (path_url pickcode : String) (violated : Bool)
    (size : Nat) : String × Bool :=
  let url := path_url ++ "?pickcode=" ++ pickcode
  let addWeb := violated && decide (size < WEB_SIZE_LIMIT)
  let url := if addWeb then url ++ "&web=true" else url
  (url ++ "&method=file", addWeb)

/-- Result dictionary of `get_url` for the file kind. -/
structure DavUrlResult where
  url : String
  web : Bool
deriving Repr, DecidableEq

/-- A `get_url` return value: the file dict, the image dict, or the 429
cooldown response. -/
inductive DavResponse where
  | result (r : DavUrlResult)
  | imageResult (url : String)
  | tooMany429
deriving Repr, DecidableEq

/-- Source `get_url` (lines 1676-1701) after pickcode resolution: the
`image` argument short-circuits to the image CDN; otherwise
`use_web_api` is read from the `web` argument alone — the attribute record
(in particular its size) is never consulted — and the resolved url is
returned with `web = use_web_api`.  Range requests from non-player agents
go through the cooldown/cache pair first. -/
def get_url (webArg imageArg : Option String) (userAgent rangeHdr : String)
    (cooldownHit : Bool) (cachedUrl : Option String)
    (resolvedUrl imageUrl : String) : DavResponse :=
  if argTruthy imageArg then DavResponse.imageResult imageUrl
  else
    let use_web_api := argTruthy webArg
    if rangeHdr ≠ "" ∧
        ¬ (pyStartsWith (pyLower userAgent) "vlc/" ∨
           pyStartsWith (pyLower userAgent) "oplayer/" ∨
           pyStartsWith (pyLower userAgent) "lavf/") then
      if cooldownHit then DavResponse.tooMany429
      else
        match cachedUrl with
        | some u => DavResponse.result ⟨u, use_web_api⟩
        | none => DavResponse.result ⟨resolvedUrl, use_web_api⟩
    else DavResponse.result ⟨resolvedUrl, use_web_api⟩

/-- What `get_page` does with a `get_url` result. -/
inductive PageAction where
  | proxyBytes (url : String)
  | redirect (url : String)
  | error429
deriving Repr, DecidableEq

/-- The file dispatch of `get_page` (lines 1771-1792): a dict with a truthy
`web` is proxied through `open_file`, anything else is answered with a
302 redirect (the image dict has no `web` key). -/
def get_page_file (resp : DavResponse) : PageAction :=
  match resp with
  | DavResponse.tooMany429 => PageAction.error429
  | DavResponse.imageResult u => PageAction.redirect u
  | DavResponse.result r =>
    if r.web then PageAction.proxyBytes r.url else PageAction.redirect r.url

end P115.Dav302

namespace P115.ServeDB

/-!
### Served-from-database gateway (examples/servedb.py)

`FileResource.get_content` (lines 161-183) against the provider schema of
lines 245-257: the main database holds `data`/`dir`/`event`, and a second
database is attached under the schema name `file` holding the blob table
`file.data`.
-/

open P115.UpdateDB (PyErr)

/-- Tables of the main mirror database. -/
def mainTables : List String := ["data", "dir", "event"]

/-- Tables of the database attached as schema `file`. -/
def attachedFileTables : List String := ["data"]

/-- SQLite resolution of an unqualified table name: a table of that NAME in
the main or an attached schema (the schema name itself does not resolve). -/
def unqualifiedTableExists (t : String) : Bool :=
  t ∈ mainTables ∨ t ∈ attachedFileTables

/-- The blob table `file.data`, keyed by file id. -/
structure BlobStore where
  rows : List (Nat × List Nat)
deriving Repr, DecidableEq

/-- Read a stored blob. -/
def blobLookup (st : BlobStore) (fid : Nat) : Option (List Nat) :=
  (st.rows.find? (fun kv => kv.1 == fid)).map (fun kv => kv.2)

/-- `INSERT ... ON CONFLICT(id) DO UPDATE` into `file.data`. -/
def blobUpsert (st : BlobStore) (fid : Nat) (b : List Nat) : BlobStore :=
  if st.rows.any (fun kv => kv.1 == fid) then
    ⟨st.rows.map (fun kv => if kv.1 == fid then (fid, b) else kv)⟩
  else
    ⟨st.rows ++ [(fid, b)]⟩

/-- Remove a blob row. -/
def blobDelete (st : BlobStore) (fid : Nat) : BlobStore :=
  ⟨st.rows.filter (fun kv => !(kv.1 == fid))⟩

/-- Result of a `get_content` call. -/
inductive ContentResult where
  | blob (bytes : List Nat)
  | redirect302 (location : String)
  | raised (e : PyErr)
deriving Repr, DecidableEq

/-- Source `FileResource.get_content`: serve an existing blob row; redirect
files of 64 KiB or more; otherwise reserve a zeroblob row, fetch the bytes
(`fetch` stands for `urlopen(self.url).read()`), and write them into the
blob.  On a fetch or write failure the code runs
`DELETE FROM file WHERE id=?` — but no table named `file` exists in any
schema (the blob table is `file.data`), so the cleanup itself raises
`OperationalError` and the reserved row stays behind. -/
def get_content (st : BlobStore) (fid : Nat) (size : Nat) (url : String)
    (fetch : Except PyErr (List Nat)) : ContentResult × BlobStore :=
  match blobLookup st fid with
  | some b => (ContentResult.blob b, st)
  | none =>
    if 1024 * 64 ≤ size then (ContentResult.redirect302 url, st)
    else
      let st1 := blobUpsert st fid (List.replicate size 0)
      let written : Except PyErr (List Nat) :=
        match fetch with
        | Except.error e => Except.error e
        | Except.ok data =>
          if size < data.length then Except.error PyErr.valueError
          else Except.ok (data ++ List.replicate (size - data.length) 0)
      match written with
      | Except.ok bytes => (ContentResult.blob bytes, blobUpsert st1 fid bytes)
      | Except.error e =>
        if unqualifiedTableExists "file" then
          (ContentResult.raised e, blobDelete st1 fid)
        else
          (ContentResult.raised PyErr.operationalError, st1)

end P115.ServeDB

namespace P115.UpdateDB

/-!
### Concrete fixtures used by the theorems
-/

/-- A synthetic live file row under the mirror root. -/
def mkFile (id mtime : Nat) : Row :=
  { id := id, parent_id := 0, pickcode := "", sha1 := "", name := "f",
    size := 1, is_dir := false, type := 99, ctime := 1, mtime := mtime,
    is_collect := false, is_alive := true }

/-- A mirror seeded with one file (id 1, mtime 10) under the root. -/
def seedDb1 : List Row := [mkFile 1 10]

/-- A mirror seeded with three files of distinct mtimes under the root. -/
def seedDb3 : List Row := [mkFile 1 30, mkFile 2 20, mkFile 3 10]

/-- A live row with an arbitrary parent, for the dangling-id fixtures. -/
def mkNode (id parent : Nat) : Row :=
  { id := id, parent_id := parent, pickcode := "", sha1 := "", name := "d",
    size := 0, is_dir := true, type := 0, ctime := 1, mtime := 1,
    is_collect := false, is_alive := true }

/-- Dangling fixture: node 1 chains to the root; node 2 has the absent
parent 5; node 3 is a child of node 2. -/
def danglingDb : List Row := [mkNode 1 0, mkNode 2 5, mkNode 3 2]

end P115.UpdateDB

/-!
## Theorems

The claim theorems C1 to C10, with their supporting lemmas, witnesses and
counterexamples.
-/

open P115 P115.UpdateDB P115.Web302 P115.Dav302 P115.ServeDB

/-- C1: evaluating the sync engine at the claim's scenarios.  For a mirror
seeded with files at known mtimes, the claim expects `diff_dir` against an
identical listing to return the empty diff `([], [])` and `updatedb_one` to
leave the live rows unchanged.  Instead `diff_dir` raises: it unpacks the
result of `select_mtime_groups` as `remains, groups`, but that function
returns the whole group list — here three groups for three files (keyed by
id, another symptom of the version skew), and one group for one file — so
the unpacking raises ValueError and `updatedb_one` propagates it.  No diff
pair is ever produced. -/
theorem c1_diff_dir_always_raises :
    select_mtime_groups seedDb3 0 = [(3, [10]), (2, [20]), (1, [30])] ∧
    diff_dir seedDb3 0 seedDb3 = Except.error PyErr.valueError ∧
    diff_dir seedDb1 0 seedDb1 = Except.error PyErr.valueError ∧
    updatedb_one seedDb3 0 seedDb3 = Except.error PyErr.valueError ∧
    updatedb_one seedDb1 0 (seedDb1 ++ [mkFile 9 40]) = Except.error PyErr.valueError :=
  ⟨by decide, rfl, rfl, rfl, rfl⟩

/-- C9: evaluating `get_content`.  A 64 KiB file redirects with the url as
location and stores nothing; a small file is fetched, stored under its id
and served from the blob store on the next call without fetching; but when
the byte fetch of a small file fails, the cleanup statement
`DELETE FROM file WHERE id=?` references a table name that exists in no
schema, so an OperationalError is raised and the reserved zeroblob row for
id 7 is left behind instead of being deleted. -/
theorem c9_get_content_eval :
    get_content ⟨[]⟩ 7 65536 "u" (Except.ok []) =
      (ContentResult.redirect302 "u", ⟨[]⟩) ∧
    get_content ⟨[]⟩ 7 3 "u" (Except.ok [1, 2, 3]) =
      (ContentResult.blob [1, 2, 3], ⟨[(7, [1, 2, 3])]⟩) ∧
    get_content ⟨[(7, [1, 2, 3])]⟩ 7 3 "u" (Except.error PyErr.fetchError) =
      (ContentResult.blob [1, 2, 3], ⟨[(7, [1, 2, 3])]⟩) ∧
    get_content ⟨[]⟩ 7 3 "u" (Except.error PyErr.fetchError) =
      (ContentResult.raised PyErr.operationalError, ⟨[(7, [0, 0, 0])]⟩) ∧
    unqualifiedTableExists "file" = false :=
  ⟨rfl, rfl, rfl, rfl, by decide⟩

/-- An id present in a table survives one upsert. -/
theorem upsertOne_preserves_id (db : List Row) (item : Row) (i : Nat)
    (hi : ∃ r ∈ db, r.id = i) : ∃ r ∈ upsertOne db item, r.id = i := by
  obtain ⟨r, hr, hri⟩ := hi
  by_cases hc : db.any (fun x => x.id == item.id)
  · by_cases he : r.id = item.id
    · refine ⟨item, ?_, he ▸ hri⟩
      simp only [upsertOne, hc, if_true]
      exact List.mem_map.mpr ⟨r, hr, by simp [he]⟩
    · refine ⟨r, ?_, hri⟩
      simp only [upsertOne, hc, if_true]
      exact List.mem_map.mpr ⟨r, hr, by simp [he]⟩
  · refine ⟨r, ?_, hri⟩
    simp only [upsertOne, hc, if_false, Bool.false_eq_true]
    exact List.mem_append_left _ hr

/-- An id present in a table survives `upsert_items`. -/
theorem upsert_items_preserves_id (items : List Row) (db : List Row) (i : Nat)
    (hi : ∃ r ∈ db, r.id = i) : ∃ r ∈ upsert_items db items, r.id = i := by
  induction items generalizing db with
  | nil => exact hi
  | cons item rest ih => exact ih _ (upsertOne_preserves_id db item i hi)

/-- An id present in a table survives `kill_items`. -/
theorem kill_items_preserves_id (db : List Row) (ids : List Nat) (i : Nat)
    (hi : ∃ r ∈ db, r.id = i) : ∃ r ∈ kill_items db ids, r.id = i := by
  obtain ⟨r, hr, hri⟩ := hi
  by_cases hm : r.id ∈ ids
  · exact ⟨{ r with is_alive := false },
      List.mem_map.mpr ⟨r, hr, by simp [hm]⟩, hri⟩
  · exact ⟨r, List.mem_map.mpr ⟨r, hr, by simp [hm]⟩, hri⟩

/-- C3: the sync engine never hard-deletes.  Over any sequence of
diff-and-apply mutations (every `data`-table write of `updatedb_one`,
`updatedb_tree` and `updatedb` is an upsert or a `kill_items`), every id
present beforehand is still present afterwards; and `kill_items` only
rewrites the killed row to the same row with `is_alive := false`, keeping
parent_id, pickcode, sha1, name, size, is_dir, type, ctime, mtime and
is_collect at their last-known values, while leaving other rows untouched.
-/
theorem c3_soft_delete_invariant (db : List Row) (ops : List SyncOp) :
    (∀ i, (∃ r ∈ db, r.id = i) → ∃ r ∈ applySyncOps db ops, r.id = i) ∧
    (∀ ids (r : Row), r ∈ db → r.id ∈ ids →
      { r with is_alive := false } ∈ kill_items db ids) ∧
    (∀ ids (r : Row), r ∈ db → r.id ∉ ids → r ∈ kill_items db ids) := by
  refine ⟨?_, ?_, ?_⟩
  · intro i hi
    induction ops generalizing db with
    | nil => exact hi
    | cons op rest ih =>
      cases op with
      | upsert items =>
        exact ih (upsert_items db items) (upsert_items_preserves_id items db i hi)
      | kill ids =>
        exact ih (kill_items db ids) (kill_items_preserves_id db ids i hi)
  · intro ids r hr hm
    exact List.mem_map.mpr ⟨r, hr, by simp [hm]⟩
  · intro ids r hr hm
    exact List.mem_map.mpr ⟨r, hr, by simp [hm]⟩

/-- Witness for C3 at a concrete table and operation sequence. -/
theorem c3_soft_delete_invariant_witness :
    (∃ r ∈ applySyncOps seedDb3 [SyncOp.kill [2], SyncOp.upsert [mkFile 9 40]],
        r.id = 2) ∧
    { mkFile 2 20 with is_alive := false } ∈ kill_items seedDb3 [2] := by
  have h := c3_soft_delete_invariant seedDb3
    [SyncOp.kill [2], SyncOp.upsert [mkFile 9 40]]
  exact ⟨h.1 2 ⟨mkFile 2 20, by decide, rfl⟩,
    h.2.1 [2] (mkFile 2 20) (by decide) (by decide)⟩

/-- The listing iterator errors with Busy whenever the ids it has recorded
so far plus the ids still to come contain a repetition. -/
theorem iterateGo_busy (raws : List Row) :
    ∀ (seen : List Nat) (dirs : List Row) (acc : List (Row × List Nat)),
      seen.Nodup → ¬ (seen ++ raws.map Row.id).Nodup →
      iterateGo seen dirs acc raws = Except.error PyErr.busy := by
  induction raws with
  | nil =>
    intro seen dirs acc hseen hdup
    simp only [List.map_nil, List.append_nil] at hdup
    exact absurd hseen hdup
  | cons r rest ih =>
    intro seen dirs acc hseen hdup
    by_cases hmem : r.id ∈ seen
    · simp [iterateGo, hmem]
    · have hseen2 : (seen ++ [r.id]).Nodup := by
        simp [List.nodup_append, hseen, hmem]
      have hdup2 : ¬ ((seen ++ [r.id]) ++ rest.map Row.id).Nodup := by
        intro hcon
        apply hdup
        simpa [List.append_assoc] using hcon
      by_cases hdir : r.is_dir
      · simpa [iterateGo, hmem, hdir] using ih (seen ++ [r.id]) (dirs ++ [r]) acc hseen2 hdup2
      · simpa [iterateGo, hmem, hdir] using
          ih (seen ++ [r.id]) (dirs.dropWhile (fun d => r.mtime ≤ d.mtime))
            (acc ++ (dirs.takeWhile (fun d => r.mtime ≤ d.mtime)).map (fun d => (d, seen ++ [r.id]))
              ++ [(r, seen ++ [r.id])]) hseen2 hdup2

/-- C4: a duplicate id inside one listing pass makes the iterator of
`iterdir` raise Busy instead of yielding anything, and the `updatedb`
orchestrator reacts to a Busy failure of a directory task by re-queuing the
same directory id while leaving the mirror untouched (in particular it does
not mark the record dead, unlike the not-found branch). -/
theorem c4_busy_redo (raws : List Row) (hdup : ¬ (raws.map Row.id).Nodup) :
    iterate raws = Except.error PyErr.busy ∧
    ∀ (db : List Row) (queue : List Nat) (id : Nat),
      (updatedb_step db queue id RunOutcome.busy).1 = db ∧
      id ∈ (updatedb_step db queue id RunOutcome.busy).2 ∧
      (updatedb_step db queue id RunOutcome.busy).2 = queue ++ [id] := by
  refine ⟨?_, ?_⟩
  · exact iterateGo_busy raws [] [] [] List.nodup_nil (by simpa using hdup)
  · intro db queue id
    exact ⟨rfl, by simp [updatedb_step], rfl⟩

/-- Witness for C4 at a listing that re-emits id 1. -/
theorem c4_busy_redo_witness :
    ¬ (([mkFile 1 10, mkFile 2 8, mkFile 1 5].map Row.id).Nodup) ∧
    iterate [mkFile 1 10, mkFile 2 8, mkFile 1 5] = Except.error PyErr.busy ∧
    (updatedb_step seedDb3 [4, 5] 3 RunOutcome.busy).2 = [4, 5] ++ [3] := by
  have h := c4_busy_redo [mkFile 1 10, mkFile 2 8, mkFile 1 5] (by decide)
  exact ⟨by decide, h.1, (h.2 seedDb3 [4, 5] 3).2.2⟩

namespace P115.Tiny302

/-- The eviction loop drops exactly the oldest overflow entries. -/
theorem cleanGo_eq_drop {K V : Type} (fuel ms : Nat) (l : List (K × V))
    (hfuel : l.length - ms ≤ fuel) :
    cleanGo fuel ms l = l.drop (l.length - ms) := by
  induction fuel generalizing l with
  | zero =>
    have : l.length - ms = 0 := Nat.le_zero.mp hfuel
    simp [cleanGo, this]
  | succ n ih =>
    by_cases hlt : ms < l.length
    · have htl : l.tail = l.drop 1 := (List.drop_one l).symm
      have hlen : l.tail.length = l.length - 1 := l.length_tail
      have h1 : l.tail.length - ms ≤ n := by omega
      have h2 := ih l.tail h1
      have h3 : l.tail.drop (l.tail.length - ms) = l.drop (l.length - ms) := by
        rw [htl, List.drop_drop]
        congr 1
        rw [htl] at hlen
        omega
      simp only [cleanGo, if_pos hlt]
      rw [h2, h3]
    · have h0 : l.length - ms = 0 := by omega
      simp [cleanGo, hlt, h0]

/-- Cleaning never changes the configured bound. -/
theorem lruClean_maxsize {K V : Type} (d : LRUDict K V) :
    (lruClean d).maxsize = d.maxsize := by
  unfold lruClean
  split <;> rfl

/-- With a positive bound, cleaning keeps the newest `maxsize` entries. -/
theorem lruClean_entries {K V : Type} (d : LRUDict K V) (hpos : 0 < d.maxsize) :
    (lruClean d).entries = d.entries.drop (d.entries.length - d.maxsize.toNat) := by
  unfold lruClean
  rw [if_pos hpos]
  exact cleanGo_eq_drop _ _ _ (Nat.sub_le _ _)

/-- With a positive bound, a cleaned dictionary holds at most `maxsize`
entries. -/
theorem lruClean_length {K V : Type} (d : LRUDict K V) (hpos : 0 < d.maxsize) :
    (lruClean d).entries.length ≤ d.maxsize.toNat := by
  rw [lruClean_entries d hpos, List.length_drop]
  omega

/-- Setting preserves the configured bound. -/
theorem lruSet_maxsize {K V : Type} [DecidableEq K] (d : LRUDict K V) (k : K)
    (v : V) : (lruSet d k v).maxsize = d.maxsize := by
  unfold lruSet
  rw [lruClean_maxsize]

/-- Folding `lruSet` over pairs preserves the configured bound. -/
theorem foldl_lruSet_maxsize {K V : Type} [DecidableEq K]
    (l : List (K × V)) (a : LRUDict K V) :
    (l.foldl (fun x kv => lruSet x kv.1 kv.2) a).maxsize = a.maxsize := by
  induction l generalizing a with
  | nil => rfl
  | cons kv rest ih => rw [List.foldl_cons, ih, lruSet_maxsize]

/-- Folding `lruSet` over a list of mappings preserves the configured
bound. -/
theorem foldl_foldl_lruSet_maxsize {K V : Type} [DecidableEq K]
    (args : List (List (K × V))) (a : LRUDict K V) :
    (args.foldl (fun acc arg => arg.foldl (fun x kv => lruSet x kv.1 kv.2) acc) a).maxsize
      = a.maxsize := by
  induction args generalizing a with
  | nil => rfl
  | cons arg rest ih => rw [List.foldl_cons, ih, foldl_lruSet_maxsize]

/-- C10: the LRUDict keeps its capacity bound as an invariant: after
`__setitem__`, `setdefault` or `update` on a dictionary with positive
`maxsize`, at most `maxsize` entries remain; `__setitem__` re-inserts the
key at the most-recently-added end (`getLast?` is the new pair), and any
eviction removes only the oldest entries (the result is a tail segment of
the erase-then-append list). -/
theorem c10_lrudict_bound {K V : Type} [DecidableEq K] (d : LRUDict K V)
    (k : K) (v dv : V) (args : List (List (K × V))) (pairs : List (K × V))
    (hpos : 0 < d.maxsize) :
    (lruSet d k v).entries.length ≤ d.maxsize.toNat ∧
    (lruSet d k v).entries.getLast? = some (k, v) ∧
    (∃ n, (lruSet d k v).entries = (lruEraseKey d.entries k ++ [(k, v)]).drop n) ∧
    (lruSetdefault d k dv).2.entries.length ≤ d.maxsize.toNat ∧
    (lruUpdate d args pairs).entries.length ≤ d.maxsize.toNat := by
  have hms : 1 ≤ d.maxsize.toNat := by omega
  have hset : lruSet d k v =
      lruClean ⟨d.maxsize, lruEraseKey d.entries k ++ [(k, v)]⟩ := rfl
  refine ⟨?_, ?_, ?_, ?_, ?_⟩
  · exact lruClean_length _ hpos
  · rw [hset,
      lruClean_entries ⟨d.maxsize, lruEraseKey d.entries k ++ [(k, v)]⟩ hpos]
    set e := lruEraseKey d.entries k with he
    have hsplit : (e ++ [(k, v)]).drop ((e ++ [(k, v)]).length - d.maxsize.toNat)
        = e.drop ((e ++ [(k, v)]).length - d.maxsize.toNat) ++ [(k, v)] := by
      rw [List.drop_append_eq_append_drop]
      congr 1
      have h0 : (e ++ [(k, v)]).length - d.maxsize.toNat - e.length = 0 := by
        simp only [List.length_append, List.length_singleton]
        omega
      rw [h0, List.drop_zero]
    rw [hsplit, List.getLast?_concat]
  · exact ⟨_, by
      rw [hset]
      exact lruClean_entries ⟨d.maxsize, lruEraseKey d.entries k ++ [(k, v)]⟩ hpos⟩
  · unfold lruSetdefault
    split <;> exact lruClean_length _ hpos
  · show (lruClean _).entries.length ≤ d.maxsize.toNat
    have hm2 : (pairs.foldl (fun a kv => lruSet a kv.1 kv.2)
        (args.foldl (fun acc arg => arg.foldl (fun a kv => lruSet a kv.1 kv.2) acc) d)).maxsize
        = d.maxsize := by
      rw [foldl_lruSet_maxsize, foldl_foldl_lruSet_maxsize]
    have hb := lruClean_length (pairs.foldl (fun a kv => lruSet a kv.1 kv.2)
        (args.foldl (fun acc arg => arg.foldl (fun a kv => lruSet a kv.1 kv.2) acc) d))
      (by rw [hm2]; exact hpos)
    rw [hm2] at hb
    exact hb

/-- Witness for C10 at a concrete dictionary of capacity 2. -/
theorem c10_lrudict_bound_witness :
    (0 : Int) < 2 ∧
    (lruSet (⟨2, [(1, 10), (5, 50)]⟩ : LRUDict Nat Nat) 7 70).entries.length ≤ 2 ∧
    (lruSet (⟨2, [(1, 10), (5, 50)]⟩ : LRUDict Nat Nat) 7 70).entries.getLast? =
      some (7, 70) := by
  have h := c10_lrudict_bound (⟨2, [(1, 10), (5, 50)]⟩ : LRUDict Nat Nat)
    7 70 0 [] [] (by decide)
  exact ⟨by decide, h.1, h.2.1⟩

end P115.Tiny302

/-- If the signature check on the first supplied value produces a response
status, the handler answers exactly that status. -/
theorem get_download_url_sign_resp (token : String)
    (sha1hex unquote : String → String) (now : Int) (q : Req302) (s : Nat)
    (hval : firstValue unquote q ≠ "")
    (hcs : check_sign token sha1hex q.sign q.t now (firstValue unquote q) = some s) :
    get_download_url token sha1hex unquote now q = Outcome302.response s := by
  simp only [get_download_url, firstValue] at hval hcs ⊢
  split_ifs at hval hcs ⊢ <;> simp_all

/-- If the signature check on the first supplied value passes, the handler
never answers 401 or 403. -/
theorem get_download_url_sign_pass (token : String)
    (sha1hex unquote : String → String) (now : Int) (q : Req302)
    (hval : firstValue unquote q ≠ "")
    (hcs : check_sign token sha1hex q.sign q.t now (firstValue unquote q) = none) :
    get_download_url token sha1hex unquote now q ≠ Outcome302.response 401 ∧
    get_download_url token sha1hex unquote now q ≠ Outcome302.response 403 := by
  simp only [get_download_url, firstValue] at hval hcs ⊢
  split_ifs at hval hcs ⊢ <;> simp_all

/-- C5: with a signing token configured and at least one lookup value
supplied, a request whose `sign` differs from the digest of
`302@115-token-t-value` (value being the first supplied of pickcode, id,
sha1, path) is answered 403; a request with a matching `sign` whose `t` is
positive and not later than the current time is answered 401; and a
matching `sign` with `t = 0` is never answered 401 or 403. -/
theorem c5_sign_check (token : String) (sha1hex unquote : String → String)
    (now : Int) (q : Req302) (htok : token ≠ "")
    (hval : firstValue unquote q ≠ "") :
    (q.sign ≠ sha1hex ("302@115-" ++ token ++ "-" ++ toString q.t ++ "-" ++
        firstValue unquote q) →
      get_download_url token sha1hex unquote now q = Outcome302.response 403) ∧
    (q.sign = sha1hex ("302@115-" ++ token ++ "-" ++ toString q.t ++ "-" ++
        firstValue unquote q) → 0 < q.t → q.t ≤ now →
      get_download_url token sha1hex unquote now q = Outcome302.response 401) ∧
    (q.sign = sha1hex ("302@115-" ++ token ++ "-" ++ toString q.t ++ "-" ++
        firstValue unquote q) → q.t = 0 →
      get_download_url token sha1hex unquote now q ≠ Outcome302.response 401 ∧
      get_download_url token sha1hex unquote now q ≠ Outcome302.response 403) := by
  refine ⟨?_, ?_, ?_⟩
  · intro hmis
    refine get_download_url_sign_resp token sha1hex unquote now q 403 hval ?_
    unfold check_sign
    rw [if_neg htok, if_pos hmis]
  · intro hmatch ht0 htn
    refine get_download_url_sign_resp token sha1hex unquote now q 401 hval ?_
    unfold check_sign
    rw [if_neg htok, if_neg (by simpa using hmatch), if_pos ⟨ht0, htn⟩]
  · intro hmatch ht0
    refine get_download_url_sign_pass token sha1hex unquote now q hval ?_
    unfold check_sign
    rw [if_neg htok, if_neg (by simpa using hmatch), if_neg (by simp [ht0])]

/-- Witness for C5: a mismatched signature at a concrete request is
answered 403. -/
theorem c5_sign_check_witness :
    ("tok" : String) ≠ "" ∧
    firstValue (fun s => s) ⟨"abc", "", "", "", "", "bad", 0⟩ ≠ "" ∧
    get_download_url "tok" (fun s => s) (fun s => s) 5
      ⟨"abc", "", "", "", "", "bad", 0⟩ = Outcome302.response 403 := by
  have h := c5_sign_check "tok" (fun s => s) (fun s => s) 5
    ⟨"abc", "", "", "", "", "bad", 0⟩ (by decide) (by decide)
  exact ⟨by decide, by decide, h.1 (by decide)⟩

/-- C6 counterexample: the claim requires every supplied pickcode that is
not alphanumeric of length 17 to be answered 400, but the full gateway
accepts the one-character pickcode `a` (it only checks `isalnum`, never the
length) and proceeds to resolution. -/
theorem c6_shape_counterexample :
    ("a" : String).length ≠ 17 ∧
    get_download_url "" (fun s => s) (fun s => s) 0 ⟨"a", "", "", "", "", "", 0⟩ =
      Outcome302.usePickcode "a" := by
  refine ⟨by decide, by decide⟩

/-- C6 (amended): what the gateways actually validate.  With no token
configured: the full gateway rejects a supplied pickcode with 400 exactly
when it is not alphanumeric (any length passes), a supplied id exactly when
it starts with `0` or is not decimal, and a supplied sha1 exactly when it
is not 40 hex characters.  The tiny gateway rejects an explicit pickcode
parameter exactly when its length is not 17 (alphanumeric-ness is not
checked), an explicit sha1 exactly when it is not 40 hex characters, and
accepts a bare all-digit query string as an id even with leading zeros. -/
theorem c6_shape_validation (sha1hex unquote : String → String) (now : Int)
    (q : Req302) (pickcode sha1 : String) (id : Nat) (qs nm : String) :
    (pyLower (pyStrip q.pickcode) ≠ "" →
      (get_download_url "" sha1hex unquote now q = Outcome302.response 400 ↔
        pyIsAlnum (pyLower (pyStrip q.pickcode)) = false)) ∧
    (pyLower (pyStrip q.pickcode) = "" → pyStrip q.id ≠ "" →
      (get_download_url "" sha1hex unquote now q = Outcome302.response 400 ↔
        (pyStartsWith (pyStrip q.id) "0" = true ∨
          pyIsDecimal (pyStrip q.id) = false))) ∧
    (pyLower (pyStrip q.pickcode) = "" → pyStrip q.id = "" →
      pyUpper (pyStrip q.sha1) ≠ "" →
      (get_download_url "" sha1hex unquote now q = Outcome302.response 400 ↔
        ((pyUpper (pyStrip q.sha1)).length ≠ 40 ∨
          pyAllHex (pyUpper (pyStrip q.sha1)) = false))) ∧
    (pickcode ≠ "" →
      (P115.Tiny302.tiny_index pickcode sha1 id qs nm =
          P115.Tiny302.TinyOutcome.badRequest ↔ pickcode.length ≠ 17)) ∧
    (pickcode = "" → sha1 ≠ "" →
      (P115.Tiny302.tiny_index pickcode sha1 id qs nm =
          P115.Tiny302.TinyOutcome.badRequest ↔
        (sha1.length ≠ 40 ∨ pyAllHex sha1 = false))) ∧
    P115.Tiny302.tiny_index "" "" 0 "0123" "" =
      P115.Tiny302.TinyOutcome.idLookup 123 := by
  have hcs : ∀ v, check_sign "" sha1hex q.sign q.t now v = none := by
    intro v
    simp [check_sign]
  refine ⟨?_, ?_, ?_, ?_, ?_, by decide⟩
  · intro h1
    simp only [get_download_url, hcs]
    rw [if_pos h1]
    by_cases ha : pyIsAlnum (pyLower (pyStrip q.pickcode)) <;> simp [ha]
  · intro h1 h2
    simp only [get_download_url, hcs]
    rw [if_neg (by simpa using h1), if_pos h2]
    by_cases hz : pyStartsWith (pyStrip q.id) "0" <;>
      by_cases hd : pyIsDecimal (pyStrip q.id) <;> simp [hz, hd]
  · intro h1 h2 h3
    simp only [get_download_url, hcs]
    rw [if_neg (by simpa using h1), if_neg (by simpa using h2), if_pos h3]
    by_cases hl : (pyUpper (pyStrip q.sha1)).length = 40 <;>
      by_cases hh : pyAllHex (pyUpper (pyStrip q.sha1)) <;> simp [hl, hh]
  · intro h1
    simp only [P115.Tiny302.tiny_index]
    rw [if_pos h1]
    by_cases hl : pickcode.length = 17 <;> simp [hl]
  · intro h1 h2
    simp only [P115.Tiny302.tiny_index]
    rw [if_neg (by simpa using h1), if_pos h2]
    by_cases hl : sha1.length = 40 <;>
      by_cases hh : pyAllHex sha1 <;> simp [hl, hh]

/-- Witness for C6 (amended) at concrete inputs. -/
theorem c6_shape_validation_witness :
    pyLower (pyStrip "a!") ≠ "" ∧
    (get_download_url "" (fun s => s) (fun s => s) 0 ⟨"a!", "", "", "", "", "", 0⟩ =
        Outcome302.response 400 ↔ pyIsAlnum (pyLower (pyStrip "a!")) = false) ∧
    ("b" : String) ≠ "" ∧
    (P115.Tiny302.tiny_index "b" "" 0 "" "" = P115.Tiny302.TinyOutcome.badRequest ↔
      ("b" : String).length ≠ 17) := by
  have h := c6_shape_validation (fun s => s) (fun s => s) 0
    ⟨"a!", "", "", "", "", "", 0⟩ "b" "" 0 "" ""
  exact ⟨by decide, h.1 (by decide), by decide, h.2.2.2.1 (by decide)⟩

/-- C7 counterexample: the claim requires a `web=true` request for a file
of exactly 115 x 1024 x 1024 + 1 bytes never to be proxied, but `get_url`
never consults the size: it honours `web=true` and `get_page` proxies the
bytes through `open_file`. -/
theorem c7_web_ceiling_counterexample :
    (⟨"abc", WEB_SIZE_LIMIT + 1, false, false⟩ : DavAttr).size =
      1024 * 1024 * 115 + 1 ∧
    get_page_file (get_url (some "true") none "ua" "" false none "http-url" "img") =
      PageAction.proxyBytes "http-url" := by
  refine ⟨by decide, by decide⟩

/-- C7 (amended): the 115 MiB ceiling is enforced only when advertising
urls: `normalize_attr` appends `&web=true` exactly for violated files
strictly below the ceiling, while `get_url` derives its proxy flag from the
`web` argument alone — every file-kind result carries
`web = argTruthy webArg` whatever the file size — and `get_page` proxies
exactly those results. -/
theorem c7_web_flag (webArg imageArg : Option String) (ua rangeHdr : String)
    (cooldownHit : Bool) (cachedUrl : Option String)
    (resolvedUrl imageUrl path_url pickcode : String) (violated : Bool)
    (size : Nat) (himg : argTruthy imageArg = false) :
    (rangeHdr = "" →
      get_url webArg imageArg ua rangeHdr cooldownHit cachedUrl resolvedUrl imageUrl =
        DavResponse.result ⟨resolvedUrl, argTruthy webArg⟩) ∧
    (∀ r, get_url webArg imageArg ua rangeHdr cooldownHit cachedUrl resolvedUrl imageUrl =
        DavResponse.result r → r.web = argTruthy webArg) ∧
    ((normalize_attr_file_url path_url pickcode violated size).2 = true ↔
      (violated = true ∧ size < WEB_SIZE_LIMIT)) := by
  refine ⟨?_, ?_, ?_⟩
  · intro hr
    simp [get_url, himg, hr]
  · intro r hr
    simp only [get_url, himg, Bool.false_eq_true, if_false] at hr
    split_ifs at hr <;>
      first
        | (simp only [DavResponse.result.injEq] at hr
           rw [← hr])
        | (cases hcu : cachedUrl <;> rw [hcu] at hr <;>
             simp only [DavResponse.result.injEq] at hr <;> rw [← hr])
  · simp [normalize_attr_file_url]

/-- Witness for C7 (amended) at concrete inputs. -/
theorem c7_web_flag_witness :
    argTruthy none = false ∧
    get_url (some "true") none "ua" "" false none "u1" "img" =
      DavResponse.result ⟨"u1", argTruthy (some "true")⟩ ∧
    ((normalize_attr_file_url "p" "pc" true 120586240).2 = true ↔
      (true = true ∧ 120586240 < WEB_SIZE_LIMIT)) := by
  have h := c7_web_flag (some "true") none "ua" "" false none "u1" "img"
    "p" "pc" true 120586240 (by decide)
  exact ⟨by decide, h.1 rfl, h.2.2⟩

namespace P115.Tiny302

/-- A width-n encoding has length n. -/
theorem toBytes_length (n : Nat) : ∀ x, (toBytes x n).length = n := by
  induction n with
  | zero => intro x; rfl
  | succ m ih =>
    intro x
    simp [toBytes, ih]

/-- A width-n encoding consists of bytes. -/
theorem toBytes_wf (n : Nat) : ∀ x, WfBytes (toBytes x n) := by
  induction n with
  | zero => intro x b hb; cases hb
  | succ m ih =>
    intro x b hb
    rcases List.mem_append.mp hb with h | h
    · exact ih _ b h
    · rcases List.mem_singleton.mp h with rfl
      exact Nat.mod_lt _ (by omega)

/-- Appending one byte multiplies the value by 256 and adds the byte. -/
theorem fromBytes_append_byte (l : List Nat) (b : Nat) :
    fromBytes (l ++ [b]) = fromBytes l * 256 + b := by
  simp [fromBytes, List.foldl_append]

/-- The value of a byte string is below 256 to its length. -/
theorem fromBytes_lt (l : List Nat) (hw : WfBytes l) :
    fromBytes l < 256 ^ l.length := by
  induction l using List.reverseRecOn with
  | nil => simp [fromBytes]
  | append_singleton l b ih =>
    rw [fromBytes_append_byte]
    have hb : b < 256 := hw b (List.mem_append_right _ (List.mem_singleton_self b))
    have hl : fromBytes l < 256 ^ l.length :=
      ih (fun x hx => hw x (List.mem_append_left _ hx))
    simp only [List.length_append, List.length_singleton, pow_succ]
    calc fromBytes l * 256 + b < (fromBytes l + 1) * 256 := by omega
    _ ≤ 256 ^ l.length * 256 := by
        have : fromBytes l + 1 ≤ 256 ^ l.length := hl
        exact Nat.mul_le_mul_right 256 this

/-- Decoding a width-n encoding of a value below 256^n returns the
value. -/
theorem fromBytes_toBytes (n : Nat) : ∀ x, x < 256 ^ n →
    fromBytes (toBytes x n) = x := by
  induction n with
  | zero =>
    intro x hx
    interval_cases x
    rfl
  | succ m ih =>
    intro x hx
    have hdiv : x / 256 < 256 ^ m := by
      rw [Nat.div_lt_iff_lt_mul (by omega : 0 < 256)]
      calc x < 256 ^ (m + 1) := hx
      _ = 256 ^ m * 256 := by rw [pow_succ]
    rw [toBytes, fromBytes_append_byte, ih _ hdiv]
    omega

/-- Encoding the value of a byte string at its own length returns the
string. -/
theorem toBytes_fromBytes (l : List Nat) (hw : WfBytes l) :
    toBytes (fromBytes l) l.length = l := by
  induction l using List.reverseRecOn with
  | nil => rfl
  | append_singleton l b ih =>
    have hb : b < 256 := hw b (List.mem_append_right _ (List.mem_singleton_self b))
    have hwl : WfBytes l := fun x hx => hw x (List.mem_append_left _ hx)
    rw [fromBytes_append_byte]
    simp only [List.length_append, List.length_singleton]
    rw [toBytes]
    have h1 : (fromBytes l * 256 + b) / 256 = fromBytes l := by omega
    have h2 : (fromBytes l * 256 + b) % 256 = b := by omega
    rw [h1, h2, ih hwl]

/-- The xor of two byte strings has the width of the first. -/
theorem bytes_xor_length (v1 v2 : List Nat) :
    (bytes_xor v1 v2).length = v1.length :=
  toBytes_length _ _

/-- The xor of two byte strings consists of bytes. -/
theorem bytes_xor_wf (v1 v2 : List Nat) : WfBytes (bytes_xor v1 v2) :=
  toBytes_wf _ _

/-- 256 to a power as 2 to a power, for the xor bound. -/
theorem pow256_eq (n : Nat) : 256 ^ n = 2 ^ (8 * n) := by
  rw [show (256 : Nat) = 2 ^ 8 from rfl, ← pow_mul]

/-- Xoring twice with the same key (of no greater width) is the
identity. -/
theorem bytes_xor_cancel (v1 v2 : List Nat) (h1 : WfBytes v1)
    (h2 : WfBytes v2) (hlen : v2.length ≤ v1.length) :
    bytes_xor (bytes_xor v1 v2) v2 = v1 := by
  unfold bytes_xor
  have hx : fromBytes v1 < 2 ^ (8 * v1.length) := by
    rw [← pow256_eq]; exact fromBytes_lt v1 h1
  have hy : fromBytes v2 < 2 ^ (8 * v1.length) := by
    calc fromBytes v2 < 256 ^ v2.length := fromBytes_lt v2 h2
    _ ≤ 256 ^ v1.length := Nat.pow_le_pow_right (by omega) hlen
    _ = 2 ^ (8 * v1.length) := pow256_eq _
  have hxy : Nat.xor (fromBytes v1) (fromBytes v2) < 256 ^ v1.length := by
    rw [pow256_eq]
    exact Nat.xor_lt_two_pow hx hy
  have hcan : Nat.xor (Nat.xor (fromBytes v1) (fromBytes v2)) (fromBytes v2) =
      fromBytes v1 := Nat.xor_cancel_right _ _
  rw [toBytes_length, fromBytes_toBytes _ _ hxy, hcan, toBytes_fromBytes v1 h1]

/-- The chunked fold of `xor` equals the recursive chunk processor
`xorTail`, starting from any position. -/
theorem accStepGo_fold (key src : List Nat) (hK : 0 < key.length) :
    ∀ (fuel start : Nat) (acc : List Nat), src.length - start < fuel →
      (accStepGo fuel start src.length key.length).foldl
          (fun acc c =>
            acc ++ bytes_xor ((src.drop c.1).take (c.2.1 - c.1)) (key.take c.2.2))
          acc
        = acc ++ xorTail key (src.drop start) := by
  intro fuel
  induction fuel with
  | zero => intro start acc h; exact absurd h (Nat.not_lt_zero _)
  | succ n ih =>
    intro start acc hfuel
    by_cases hlt : start + key.length < src.length
    · rw [accStepGo, if_pos hlt, List.foldl_cons]
      have hrec := ih (start + key.length) (acc ++
        bytes_xor ((src.drop start).take (start + key.length - start))
          (key.take key.length)) (by omega)
      rw [hrec]
      have hs : src.drop start ≠ [] := by
        apply List.ne_nil_of_length_pos
        rw [List.length_drop]
        omega
      rw [show xorTail key (src.drop start) =
            bytes_xor ((src.drop start).take key.length)
                (key.take (min key.length (src.drop start).length)) ++
              xorTail key ((src.drop start).drop key.length) from by
          rw [xorTail]
          rw [dif_neg (by push_neg; exact ⟨hs, by omega⟩)]]
      have hmin : min key.length (src.drop start).length = key.length := by
        rw [List.length_drop]
        omega
      have hdd : (src.drop start).drop key.length = src.drop (start + key.length) := by
        rw [List.drop_drop]
      have htk : start + key.length - start = key.length := by omega
      rw [hmin, hdd, htk, List.append_assoc]
    · by_cases hst : start < src.length
      · rw [accStepGo, if_neg hlt, if_pos hst, List.foldl_cons, List.foldl_nil]
        have hs : src.drop start ≠ [] := by
          apply List.ne_nil_of_length_pos
          rw [List.length_drop]
          omega
        have hlen : (src.drop start).length = src.length - start := List.length_drop _ _
        rw [show xorTail key (src.drop start) =
              bytes_xor ((src.drop start).take key.length)
                  (key.take (min key.length (src.drop start).length)) ++
                xorTail key ((src.drop start).drop key.length) from by
            rw [xorTail]
            rw [dif_neg (by push_neg; exact ⟨hs, by omega⟩)]]
        have hle : (src.drop start).length ≤ key.length := by omega
        have htake : (src.drop start).take key.length = src.drop start :=
          List.take_of_length_le hle
        have hdrop : (src.drop start).drop key.length = [] :=
          List.drop_eq_nil_of_le hle
        have hmin : min key.length (src.drop start).length = (src.drop start).length :=
          Nat.min_eq_right hle
        rw [htake, hdrop, hmin, hlen]
        rw [show xorTail key [] = [] from by rw [xorTail]; simp]
        rw [show (src.drop start).take (src.length - start) = src.drop start from by
          rw [← hlen]; exact List.take_length _]
        rw [List.append_nil]
      · rw [accStepGo, if_neg hlt, if_neg hst, List.foldl_nil]
        have hdrop : src.drop start = [] := List.drop_eq_nil_of_le (by omega)
        rw [hdrop]
        rw [show xorTail key [] = [] from by rw [xorTail]; simp]
        rw [List.append_nil]

/-- The `xor` primitive as head chunk plus recursive tail. -/
theorem xor_eq_head_tail (src key : List Nat) (hK : 0 < key.length) :
    xor src key =
      bytes_xor (src.take (src.length % 4)) (key.take (src.length % 4)) ++
        xorTail key (src.drop (src.length % 4)) := by
  unfold xor acc_step
  have hfold := accStepGo_fold key src hK (src.length - src.length % 4 + 1)
    (src.length % 4)
    (if src.length % 4 ≠ 0 then
      bytes_xor (src.take (src.length % 4)) (key.take (src.length % 4)) else [])
    (by omega)
  rw [hfold]
  by_cases hz : src.length % 4 = 0
  · rw [if_neg (by simpa using hz), hz]
    simp [bytes_xor, fromBytes, toBytes]
  · rw [if_pos hz]

/-- Take at the length of the left part of an append. -/
theorem take_append_eq {α : Type} (l1 l2 : List α) (n : Nat)
    (h : l1.length = n) : (l1 ++ l2).take n = l1 := by
  rw [← h, List.take_left]

/-- Drop at the length of the left part of an append. -/
theorem drop_append_eq {α : Type} (l1 l2 : List α) (n : Nat)
    (h : l1.length = n) : (l1 ++ l2).drop n = l2 := by
  rw [← h, List.drop_left]

/-- The chunk processor preserves length. -/
theorem xorTail_length (key : List Nat) (hK : 0 < key.length) :
    ∀ (n : Nat) (s : List Nat), s.length ≤ n →
      (xorTail key s).length = s.length := by
  intro n
  induction n with
  | zero =>
    intro s hs
    have : s = [] := List.eq_nil_of_length_eq_zero (by omega)
    subst this
    rw [xorTail]
    simp
  | succ m ih =>
    intro s hs
    by_cases hnil : s = []
    · subst hnil
      rw [xorTail]
      simp
    · rw [xorTail, dif_neg (by push_neg; exact ⟨hnil, by omega⟩)]
      have hlen : 0 < s.length := List.length_pos.mpr hnil
      have hrec := ih (s.drop key.length) (by rw [List.length_drop]; omega)
      rw [List.length_append, bytes_xor_length, hrec, List.length_take,
        List.length_drop]
      omega

/-- The chunk processor emits bytes. -/
theorem xorTail_wf (key : List Nat) :
    ∀ (n : Nat) (s : List Nat), s.length ≤ n → WfBytes (xorTail key s) := by
  intro n
  induction n with
  | zero =>
    intro s hs b hb
    have : s = [] := List.eq_nil_of_length_eq_zero (by omega)
    subst this
    rw [xorTail] at hb
    simp at hb
  | succ m ih =>
    intro s hs b hb
    by_cases hguard : s = [] ∨ key.length = 0
    · rw [xorTail, dif_pos hguard] at hb
      cases hb
    · rw [xorTail, dif_neg hguard] at hb
      push_neg at hguard
      rcases List.mem_append.mp hb with h | h
      · exact bytes_xor_wf _ _ b h
      · exact ih (s.drop key.length)
          (by
            rw [List.length_drop]
            have : 0 < s.length := List.length_pos.mpr hguard.1
            omega) b h

/-- Processing twice with the same key is the identity. -/
theorem xorTail_cancel (key : List Nat) (hK : 0 < key.length)
    (hkey : WfBytes key) :
    ∀ (n : Nat) (s : List Nat), s.length ≤ n → WfBytes s →
      xorTail key (xorTail key s) = s := by
  intro n
  induction n with
  | zero =>
    intro s hs _
    have : s = [] := List.eq_nil_of_length_eq_zero (by omega)
    subst this
    rw [xorTail]
    simp
    rw [xorTail]
    simp
  | succ m ih =>
    intro s hs hws
    by_cases hnil : s = []
    · subst hnil
      rw [xorTail]
      simp
      rw [xorTail]
      simp
    · have hslen : 0 < s.length := List.length_pos.mpr hnil
      have hgin : ¬ (s = [] ∨ key.length = 0) := by push_neg; exact ⟨hnil, by omega⟩
      rw [show xorTail key s =
            bytes_xor (s.take key.length) (key.take (min key.length s.length)) ++
              xorTail key (s.drop key.length) from by
          rw [xorTail]
          rw [dif_neg hgin]]
      set A := bytes_xor (s.take key.length) (key.take (min key.length s.length))
        with hA
      set B := xorTail key (s.drop key.length) with hB
      have hAlen : A.length = min key.length s.length := by
        rw [hA, bytes_xor_length, List.length_take]
      have hBlen : B.length = s.length - key.length := by
        rw [hB, xorTail_length key hK (s.drop key.length).length _ le_rfl,
          List.length_drop]
      have hTlen : (A ++ B).length = s.length := by
        rw [List.length_append, hAlen, hBlen]
        omega
      have hABnil : A ++ B ≠ [] := by
        apply List.ne_nil_of_length_pos
        omega
      rw [show xorTail key (A ++ B) =
            bytes_xor ((A ++ B).take key.length)
                (key.take (min key.length (A ++ B).length)) ++
              xorTail key ((A ++ B).drop key.length) from by
          rw [xorTail]
          rw [dif_neg (by push_neg; exact ⟨hABnil, by omega⟩)]]
      have hkp_wf : WfBytes (key.take (min key.length s.length)) :=
        fun b hb => hkey b (List.mem_of_mem_take hb)
      have hkp_len : (key.take (min key.length s.length)).length =
          min key.length s.length := by
        rw [List.length_take]
        omega
      by_cases hcase : s.length ≤ key.length
      · have hBnil : B = [] := by
          rw [hB, List.drop_eq_nil_of_le hcase]
          rw [xorTail]
          simp
        have hAfull : A.length = s.length := by
          rw [hAlen]
          omega
        have htakeA : (A ++ B).take key.length = A := by
          rw [hBnil, List.append_nil]
          exact List.take_of_length_le (by omega)
        have hdropA : (A ++ B).drop key.length = [] := by
          rw [hBnil, List.append_nil]
          exact List.drop_eq_nil_of_le (by omega)
        rw [htakeA, hdropA, hTlen]
        rw [show xorTail key [] = [] from by rw [xorTail]; simp]
        rw [List.append_nil, hA]
        have hstake : s.take key.length = s := List.take_of_length_le hcase
        rw [hstake]
        exact bytes_xor_cancel s _ hws hkp_wf (by rw [hkp_len]; omega)
      · push_neg at hcase
        have hAfull : A.length = key.length := by
          rw [hAlen]
          omega
        have htakeA : (A ++ B).take key.length = A := take_append_eq A B _ hAfull
        have hdropA : (A ++ B).drop key.length = B := drop_append_eq A B _ hAfull
        rw [htakeA, hdropA, hTlen]
        have hhead : bytes_xor A (key.take (min key.length s.length)) =
            s.take key.length := by
          rw [hA]
          refine bytes_xor_cancel _ _ (fun b hb => hws b (List.mem_of_mem_take hb))
            hkp_wf ?_
          rw [hkp_len, List.length_take]
        have htail : xorTail key B = s.drop key.length := by
          rw [hB]
          refine ih (s.drop key.length) ?_ (fun b hb => hws b (List.mem_of_mem_drop hb))
          rw [List.length_drop]
          omega
        rw [hhead, htail, List.take_append_drop]

/-- The `xor` primitive preserves length. -/
theorem xor_length (src key : List Nat) (hK : 0 < key.length) :
    (xor src key).length = src.length := by
  rw [xor_eq_head_tail src key hK, List.length_append, bytes_xor_length,
    xorTail_length key hK (src.drop (src.length % 4)).length _ le_rfl,
    List.length_take, List.length_drop]
  have := Nat.mod_le src.length 4
  omega

/-- The `xor` primitive emits bytes. -/
theorem xor_wf (src key : List Nat) (hK : 0 < key.length) :
    WfBytes (xor src key) := by
  rw [xor_eq_head_tail src key hK]
  intro b hb
  rcases List.mem_append.mp hb with h | h
  · exact bytes_xor_wf _ _ b h
  · exact xorTail_wf key (src.drop (src.length % 4)).length _ le_rfl b h

/-- C2 core: xoring twice with the same nonempty key is the identity. -/
theorem xor_xor_cancel (src key : List Nat) (hK : 0 < key.length)
    (hsrc : WfBytes src) (hkey : WfBytes key) :
    xor (xor src key) key = src := by
  have hlen : (xor src key).length = src.length := xor_length src key hK
  have hmod := Nat.mod_le src.length 4
  rw [xor_eq_head_tail (xor src key) key hK, hlen,
    xor_eq_head_tail src key hK]
  set A := bytes_xor (src.take (src.length % 4)) (key.take (src.length % 4))
    with hA
  set B := xorTail key (src.drop (src.length % 4)) with hB
  have hAlen : A.length = src.length % 4 := by
    rw [hA, bytes_xor_length, List.length_take]
    omega
  rw [take_append_eq A B _ hAlen, drop_append_eq A B _ hAlen]
  have hhead : bytes_xor A (key.take (src.length % 4)) =
      src.take (src.length % 4) := by
    rw [hA]
    refine bytes_xor_cancel _ _ (fun b hb => hsrc b (List.mem_of_mem_take hb))
      (fun b hb => hkey b (List.mem_of_mem_take hb)) ?_
    rw [List.length_take, List.length_take]
    omega
  have htail : xorTail key B = src.drop (src.length % 4) := by
    rw [hB]
    exact xorTail_cancel key hK hkey (src.drop (src.length % 4)).length _ le_rfl
      (fun b hb => hsrc b (List.mem_of_mem_drop hb))
  rw [hhead, htail, List.take_append_drop]

/-- Every byte of the key-transform table is a byte. -/
theorem G_kts_wf : WfBytes G_kts := by
  unfold WfBytes
  decide

/-- The key-schedule fold appends one byte per index and keeps the
accumulator well formed. -/
theorem gen_key_fold_spec (rand_key : List Nat) (sk_len : Nat) :
    ∀ (l : List Nat) (acc kl : List Nat),
      l.foldlM
        (fun acc i => do
          let rk ← rand_key.get? i
          let gi ← G_kts.get? (sk_len * i)
          let gl ← G_kts.get? (sk_len * (sk_len - 1) - sk_len * i)
          let x := (rk + gi) % 256
          pure (acc ++ [Nat.xor gl x]))
        acc = some kl →
      WfBytes acc → kl.length = acc.length + l.length ∧ WfBytes kl := by
  intro l
  induction l with
  | nil =>
    intro acc kl h hacc
    simp only [List.foldlM_nil, Option.pure_def, Option.some.injEq] at h
    subst h
    exact ⟨by simp, hacc⟩
  | cons i t ih =>
    intro acc kl h hacc
    rw [List.foldlM_cons] at h
    cases hrk : rand_key.get? i with
    | none => rw [hrk] at h; simp at h
    | some rk =>
      rw [hrk] at h
      cases hgi : G_kts.get? (sk_len * i) with
      | none => rw [hgi] at h; simp at h
      | some gi =>
        rw [hgi] at h
        cases hgl : G_kts.get? (sk_len * (sk_len - 1) - sk_len * i) with
        | none => rw [hgl] at h; simp at h
        | some gl =>
          rw [hgl] at h
          simp only [Option.pure_def, Option.bind_some] at h
          have hglb : gl < 256 := G_kts_wf gl (List.get?_mem hgl)
          have hbyte : Nat.xor gl ((rk + gi) % 256) < 256 := by
            have h1 : gl < 2 ^ 8 := hglb
            have h2 : (rk + gi) % 256 < 2 ^ 8 := Nat.mod_lt _ (by omega)
            exact Nat.xor_lt_two_pow h1 h2
          have hacc2 : WfBytes (acc ++ [Nat.xor gl ((rk + gi) % 256)]) := by
            intro b hb
            rcases List.mem_append.mp hb with hm | hm
            · exact hacc b hm
            · rcases List.mem_singleton.mp hm with rfl
              exact hbyte
          obtain ⟨hlen, hwf⟩ := ih _ kl h hacc2
          refine ⟨?_, hwf⟩
          rw [hlen, List.length_append, List.length_singleton, List.length_cons]
          omega

/-- The key schedule succeeds on any seed of at least 12 bytes. -/
theorem gen_key_succeeds (rand_key : List Nat) (hlen : 12 ≤ rand_key.length) :
    ∃ kl, gen_key rand_key 12 = some kl := by
  have main : ∀ (l : List Nat), (∀ i ∈ l, i < 12) → ∀ acc,
      ∃ kl, l.foldlM
        (fun acc i => do
          let rk ← rand_key.get? i
          let gi ← G_kts.get? (12 * i)
          let gl ← G_kts.get? (12 * (12 - 1) - 12 * i)
          let x := (rk + gi) % 256
          pure (acc ++ [Nat.xor gl x]))
        acc = some kl := by
    intro l
    induction l with
    | nil => intro _ acc; exact ⟨acc, rfl⟩
    | cons i t ih =>
      intro hi acc
      have hilt : i < 12 := hi i (List.mem_cons_self i t)
      have hrk : ∃ rk, rand_key.get? i = some rk := by
        rw [List.get?_eq_get (by omega)]
        exact ⟨_, rfl⟩
      have hgi : ∃ gi, G_kts.get? (12 * i) = some gi := by
        rw [List.get?_eq_get (by simp [G_kts]; omega)]
        exact ⟨_, rfl⟩
      have hgl : ∃ gl, G_kts.get? (12 * (12 - 1) - 12 * i) = some gl := by
        rw [List.get?_eq_get (by simp [G_kts]; omega)]
        exact ⟨_, rfl⟩
      obtain ⟨rk, hrk⟩ := hrk
      obtain ⟨gi, hgi⟩ := hgi
      obtain ⟨gl, hgl⟩ := hgl
      rw [List.foldlM_cons, hrk, hgi, hgl]
      simp only [Option.pure_def, Option.bind_some]
      exact ih (fun j hj => hi j (List.mem_cons_of_mem i hj)) _
  exact main (List.range 12) (by simp) []

/-- C2 (amended): the decrypt side's XOR stage exactly inverts the
seed-keyed response-envelope assembly.  For any 16-byte seed and any byte
payload, feeding `seed ‖ xor(reverse(xor(payload, key4)), gen_key(seed))`
to the stage of `decrypt` that follows the RSA blocks recovers the payload
byte for byte.  (The full `decrypt (encrypt payload)` round trip fails —
see the counterexample — because `encrypt` builds its envelope with the
fixed `key12` and a zero seed, and both functions exponentiate by the same
public exponent.) -/
theorem c2_decrypt_inverts_envelope
    (s0 s1 s2 s3 s4 s5 s6 s7 s8 s9 s10 s11 s12 s13 s14 s15 : Nat)
    (data : List Nat) (hdata : WfBytes data) :
    ∃ kl, gen_key [s0, s1, s2, s3, s4, s5, s6, s7, s8, s9, s10, s11, s12,
        s13, s14, s15] 12 = some kl ∧
      decryptStage ([s0, s1, s2, s3, s4, s5, s6, s7, s8, s9, s10, s11, s12,
        s13, s14, s15] ++ xor ((xor data key4).reverse) kl) = some data := by
  set seed := [s0, s1, s2, s3, s4, s5, s6, s7, s8, s9, s10, s11, s12, s13,
    s14, s15] with hseed
  obtain ⟨kl, hkl⟩ := gen_key_succeeds seed (by rw [hseed]; simp)
  obtain ⟨hkll, hklw⟩ := gen_key_fold_spec seed 12 (List.range 12) [] kl hkl
    (by intro b hb; cases hb)
  simp only [List.length_nil, List.length_range, Nat.zero_add] at hkll
  refine ⟨kl, hkl, ?_⟩
  have hseedlen : seed.length = 16 := by rw [hseed]; rfl
  set body := xor ((xor data key4).reverse) kl with hbody
  have htake : (seed ++ body).take 16 = seed := take_append_eq seed body 16 hseedlen
  have hdrop : (seed ++ body).drop 16 = body := drop_append_eq seed body 16 hseedlen
  simp only [decryptStage, htake, hdrop, hkl, Option.bind_some, Option.some.injEq,
    Option.bind_eq_bind, Option.some_bind]
  have hk4len : 0 < key4.length := by decide
  have hk4wf : WfBytes key4 := by unfold WfBytes; decide
  have hkllen : 0 < kl.length := by omega
  have hx1wf : WfBytes ((xor data key4).reverse) := by
    intro b hb
    exact xor_wf data key4 hk4len b (List.mem_reverse.mp hb)
  have h1 : xor body kl = (xor data key4).reverse := by
    rw [hbody]
    exact xor_xor_cancel _ kl hkllen hx1wf hklw
  rw [h1, List.reverse_reverse, xor_xor_cancel data key4 hk4len hdata hk4wf]
  rfl

/-- Witness for C2 (amended) at the zero seed and payload `[1, 2, 3]`. -/
theorem c2_decrypt_inverts_envelope_witness :
    (∀ b ∈ [1, 2, 3], b < 256) ∧
    ∃ kl, gen_key [0, 0, 0, 0, 0, 0, 0, 0, 0, 0, 0, 0, 0, 0, 0, 0] 12 = some kl ∧
      decryptStage ([0, 0, 0, 0, 0, 0, 0, 0, 0, 0, 0, 0, 0, 0, 0, 0] ++
        xor ((xor [1, 2, 3] key4).reverse) kl) = some [1, 2, 3] :=
  ⟨by decide,
    c2_decrypt_inverts_envelope 0 0 0 0 0 0 0 0 0 0 0 0 0 0 0 0 [1, 2, 3]
      (by unfold WfBytes; decide)⟩

set_option maxRecDepth 100000 in
/-- C2 counterexample: the claimed round trip fails already on a one-byte
payload: `decrypt (encrypt payload)` does not return the payload (both
functions exponentiate by the public exponent `RSA_n`, and they use
different XOR keys). -/
theorem c2_roundtrip_counterexample : decrypt (encrypt [65]) ≠ some [65] := by
  decide

end P115.Tiny302

namespace P115.UpdateDB

/-- A successful parent lookup comes from a table pair. -/
theorem lookupPid_mem {d : List (Nat × Nat)} {k p : Nat}
    (h : lookupPid d k = some p) : (k, p) ∈ d := by
  unfold lookupPid at h
  rcases Option.map_eq_some'.mp h with ⟨kv, hfind, hsnd⟩
  have hmem := List.mem_of_find?_eq_some hfind
  have hpred := List.find?_some hfind
  have h1 : kv.1 = k := by simpa using hpred
  have h2 : kv = (k, p) := by
    cases kv
    simp_all
  rwa [h2] at hmem

/-- A successful parent lookup means the id is a key of the table. -/
theorem lookupPid_mem_keys {d : List (Nat × Nat)} {k p : Nat}
    (h : lookupPid d k = some p) : k ∈ d.map Prod.fst :=
  List.mem_map.mpr ⟨(k, p), lookupPid_mem h, rfl⟩

/-- A parent lookup fails exactly for ids that are not keys. -/
theorem lookupPid_none_iff {d : List (Nat × Nat)} {k : Nat} :
    lookupPid d k = none ↔ k ∉ d.map Prod.fst := by
  unfold lookupPid
  rw [Option.map_eq_none']
  rw [List.find?_eq_none]
  constructor
  · intro h hk
    rcases List.mem_map.mp hk with ⟨kv, hkv, hfst⟩
    exact absurd (by simpa using hfst) (by simpa using h kv hkv)
  · intro h kv hkv
    by_contra hb
    exact h (List.mem_map.mpr ⟨kv, hkv, by simpa using hb⟩)

/-- Every key has a parent entry. -/
theorem lookupPid_of_mem_keys {d : List (Nat × Nat)} {k : Nat}
    (h : k ∈ d.map Prod.fst) : ∃ p, lookupPid d k = some p := by
  rcases ho : lookupPid d k with _ | p
  · exact absurd (lookupPid_none_iff.mp ho) (by simpa using h)
  · exact ⟨p, rfl⟩

/-- A chain cannot both reach the root and dangle. -/
theorem reachesRoot_not_dangling {d : List (Nat × Nat)} {k : Nat}
    (hr : ReachesRoot d k) : ¬ Dangling d k := by
  induction hr with
  | base k hk =>
    intro hd
    cases hd with
    | base _ p hk2 hp _ => rw [hk] at hk2; cases hk2; exact hp rfl
    | step _ p hk2 hp _ => rw [hk] at hk2; cases hk2; exact hp rfl
  | step k p hk hp hrp ih =>
    intro hd
    cases hd with
    | base _ q hk2 hq hqn =>
      rw [hk] at hk2
      cases hk2
      have : ∃ r, lookupPid d p = some r := by
        cases hrp with
        | base _ h => exact ⟨0, h⟩
        | step _ r h _ _ => exact ⟨r, h⟩
      rcases this with ⟨r, hr2⟩
      rw [hqn] at hr2
      cases hr2
    | step _ q hk2 hq hd2 =>
      rw [hk] at hk2
      cases hk2
      exact ih hd2

/-- Under the unique-break hypotheses, a dangling id is the broken node or
one of its descendants. -/
theorem dangling_to_desc {d : List (Nat × Nat)} {x p0 : Nat}
    (huniq : ∀ k p, lookupPid d k = some p → p ≠ 0 → lookupPid d p = none →
      k = x) {i : Nat} (hd : Dangling d i) : DescendantOf d x i := by
  induction hd with
  | base k p hk hp hpn =>
    have : k = x := huniq k p hk hp hpn
    rw [this]
    exact DescendantOf.refl
  | step k p hk hp _ ih =>
    exact DescendantOf.step k p hk ih

/-- Under the unique-break hypotheses, the broken node and each of its
descendants dangles. -/
theorem desc_to_dangling {d : List (Nat × Nat)} {x p0 : Nat}
    (hzero : 0 ∉ d.map Prod.fst)
    (hx : lookupPid d x = some p0) (hp0 : p0 ≠ 0)
    (hp0n : lookupPid d p0 = none) {i : Nat}
    (hd : DescendantOf d x i) : Dangling d i := by
  induction hd with
  | refl => exact Dangling.base x p0 hx hp0 hp0n
  | step k p hk hdesc ih =>
    have hpz : p ≠ 0 := by
      intro h0
      subst h0
      cases hdesc with
      | refl => exact hzero (lookupPid_mem_keys hx)
      | step _ q hl _ => exact hzero (lookupPid_mem_keys hl)
    exact Dangling.step k p hk hpz ih

end P115.UpdateDB

namespace P115.UpdateDB

/-- Correctness of one memoised ancestor walk: with sound caches and a
chain-connected `temp` whose classification matches that of the current
node, the walk terminates within the rank-derived fuel and classifies all
of `temp` soundly, growing the caches monotonically; the dangling set
always contains the absent parent id as soon as it is nonempty. -/
theorem walkOne_spec (d : List (Nat × Nat)) (rank : Nat → Nat) (x p0 : Nat)
    (hrk : ∀ k p, lookupPid d k = some p → p ≠ 0 → p ∈ d.map Prod.fst →
      rank p < rank k)
    (hx : lookupPid d x = some p0) (hp0 : p0 ≠ 0)
    (hp0n : lookupPid d p0 = none)
    (huniq : ∀ k p, lookupPid d k = some p → p ≠ 0 → lookupPid d p = none →
      k = x) :
    ∀ (fuel k : Nat) (temp : List Nat) (ok na : Finset Nat),
      (k ∈ d.map Prod.fst ∨ k = p0) →
      k ∈ temp →
      (GoodId d k → ∀ t ∈ temp, GoodId d t) →
      (BadId d p0 k → ∀ t ∈ temp, BadId d p0 t) →
      (∀ i ∈ ok, GoodId d i) →
      (∀ i ∈ na, BadId d p0 i) →
      (na.Nonempty → p0 ∈ na) →
      (k ∈ d.map Prod.fst → rank k + 2 ≤ fuel) →
      (k = p0 → 1 ≤ fuel) →
      ∃ ok2 na2, walkOne d fuel k temp ok na = some (ok2, na2) ∧
        (∀ i ∈ ok2, GoodId d i) ∧
        (∀ i ∈ na2, BadId d p0 i) ∧
        (na2.Nonempty → p0 ∈ na2) ∧
        ok ⊆ ok2 ∧ na ⊆ na2 ∧
        (∀ t ∈ temp, t ∈ ok2 ∨ t ∈ na2) := by
  intro fuel
  induction fuel with
  | zero =>
    intro k temp ok na hk _ _ _ _ _ _ hfk hfp
    rcases hk with hk | hk
    · exact absurd (hfk hk) (by omega)
    · exact absurd (hfp hk) (by omega)
  | succ f ih =>
    intro k temp ok na hk hkt htg htb hok hna hnap0 hfk hfp
    cases hlk : lookupPid d k with
    | none =>
      have hknk : k ∉ d.map Prod.fst := lookupPid_none_iff.mp hlk
      have hkp0 : k = p0 := by
        rcases hk with hk | hk
        · exact absurd hk hknk
        · exact hk
      refine ⟨ok, na ∪ temp.toFinset, ?_, hok, ?_, ?_, Finset.Subset.refl ok,
        Finset.subset_union_left, ?_⟩
      · simp only [walkOne, hlk]
      · intro i hi
        rcases Finset.mem_union.mp hi with hi | hi
        · exact hna i hi
        · exact htb (Or.inr hkp0) i (List.mem_toFinset.mp hi)
      · intro _
        exact Finset.mem_union_right _ (List.mem_toFinset.mpr (hkp0 ▸ hkt))
      · intro t ht
        exact Or.inr (Finset.mem_union_right _ (List.mem_toFinset.mpr ht))
    | some p =>
      have hkmem : k ∈ d.map Prod.fst := lookupPid_mem_keys hlk
      by_cases hpz : p = 0
      · subst hpz
        have hgood : GoodId d k := ⟨hkmem, ReachesRoot.base k hlk⟩
        refine ⟨ok ∪ temp.toFinset, na, ?_, ?_, hna, hnap0,
          Finset.subset_union_left, Finset.Subset.refl na, ?_⟩
        · simp [walkOne, hlk]
        · intro i hi
          rcases Finset.mem_union.mp hi with hi | hi
          · exact hok i hi
          · exact htg hgood i (List.mem_toFinset.mp hi)
        · intro t ht
          exact Or.inl (Finset.mem_union_right _ (List.mem_toFinset.mpr ht))
      · by_cases hpok : p ∈ ok
        · have hgp : GoodId d p := hok p hpok
          have hgood : GoodId d k := ⟨hkmem, ReachesRoot.step k p hlk hpz hgp.2⟩
          refine ⟨ok ∪ temp.toFinset, na, ?_, ?_, hna, hnap0,
            Finset.subset_union_left, Finset.Subset.refl na, ?_⟩
          · simp only [walkOne, hlk, if_neg hpz, if_pos hpok]
          · intro i hi
            rcases Finset.mem_union.mp hi with hi | hi
            · exact hok i hi
            · exact htg hgood i (List.mem_toFinset.mp hi)
          · intro t ht
            exact Or.inl (Finset.mem_union_right _ (List.mem_toFinset.mpr ht))
        · by_cases hpna : p ∈ na
          · have hbp : BadId d p0 p := hna p hpna
            have hbr : Dangling d k := by
              rcases hbp with ⟨_, hbr⟩ | hpp0
              · exact Dangling.step k p hlk hpz hbr
              · subst hpp0
                exact Dangling.base k p hlk hpz hp0n
            have hbad : BadId d p0 k := Or.inl ⟨hkmem, hbr⟩
            refine ⟨ok, na ∪ temp.toFinset, ?_, hok, ?_, ?_,
              Finset.Subset.refl ok, Finset.subset_union_left, ?_⟩
            · simp only [walkOne, hlk, if_neg hpz, if_neg hpok, if_pos hpna]
            · intro i hi
              rcases Finset.mem_union.mp hi with hi | hi
              · exact hna i hi
              · exact htb hbad i (List.mem_toFinset.mp hi)
            · intro _
              exact Finset.mem_union_left _ (hnap0 ⟨p, hpna⟩)
            · intro t ht
              exact Or.inr (Finset.mem_union_right _ (List.mem_toFinset.mpr ht))
          · have hkeynext : p ∈ d.map Prod.fst ∨ p = p0 := by
              by_cases hpk : p ∈ d.map Prod.fst
              · exact Or.inl hpk
              · have hpn : lookupPid d p = none := lookupPid_none_iff.mpr hpk
                have hkx : k = x := huniq k p hlk hpz hpn
                subst hkx
                rw [hx] at hlk
                cases hlk
                exact Or.inr rfl
            have htg2 : GoodId d p → ∀ t ∈ temp ++ [p], GoodId d t := by
              intro hgp t ht
              have hgood : GoodId d k := ⟨hkmem, ReachesRoot.step k p hlk hpz hgp.2⟩
              rcases List.mem_append.mp ht with ht | ht
              · exact htg hgood t ht
              · rcases List.mem_singleton.mp ht with rfl
                exact hgp
            have htb2 : BadId d p0 p → ∀ t ∈ temp ++ [p], BadId d p0 t := by
              intro hbp t ht
              have hbr : Dangling d k := by
                rcases hbp with ⟨_, hbr⟩ | hpp0
                · exact Dangling.step k p hlk hpz hbr
                · subst hpp0
                  exact Dangling.base k p hlk hpz hp0n
              have hbad : BadId d p0 k := Or.inl ⟨hkmem, hbr⟩
              rcases List.mem_append.mp ht with ht | ht
              · exact htb hbad t ht
              · rcases List.mem_singleton.mp ht with rfl
                exact hbp
            have hfk2 : p ∈ d.map Prod.fst → rank p + 2 ≤ f := by
              intro hpk
              have h1 := hrk k p hlk hpz hpk
              have h2 := hfk hkmem
              omega
            have hfp2 : p = p0 → 1 ≤ f := by
              intro _
              have h2 := hfk hkmem
              omega
            obtain ⟨ok2, na2, heq, hok2, hna2, hnap02, hsok, hsna, hcomp⟩ :=
              ih p (temp ++ [p]) ok na hkeynext
                (List.mem_append_right _ (List.mem_singleton_self p))
                htg2 htb2 hok hna hnap0 hfk2 hfp2
            refine ⟨ok2, na2, ?_, hok2, hna2, hnap02, hsok, hsna, ?_⟩
            · simp only [walkOne, hlk, if_neg hpz, if_neg hpok, if_neg hpna]
              exact heq
            · intro t ht
              exact hcomp t (List.mem_append_left _ ht)

end P115.UpdateDB

/-- Folding the memoised walk over a list of live rows classifies every
visited id soundly, with the dangling set containing the absent parent id
whenever it is nonempty. -/
theorem walk_fold_spec (d : List (Nat × Nat)) (rank : Nat → Nat) (x p0 : Nat)
    (hrk : ∀ k p, lookupPid d k = some p → p ≠ 0 → p ∈ d.map Prod.fst →
      rank p < rank k)
    (hx : lookupPid d x = some p0) (hp0 : p0 ≠ 0)
    (hp0n : lookupPid d p0 = none)
    (huniq : ∀ k p, lookupPid d k = some p → p ≠ 0 → lookupPid d p = none →
      k = x)
    (hrb : ∀ k ∈ d.map Prod.fst, rank k + 1 ≤ d.length) :
    ∀ (items : List (Nat × Nat)) (ok na : Finset Nat),
      (∀ kv ∈ items, kv.1 ∈ d.map Prod.fst) →
      (∀ i ∈ ok, GoodId d i) →
      (∀ i ∈ na, BadId d p0 i) →
      (na.Nonempty → p0 ∈ na) →
      ∃ ok2 na2,
        items.foldlM (fun (st : Finset Nat × Finset Nat) kv =>
          walkOne d (d.length + 1) kv.1 [kv.1] st.1 st.2) (ok, na)
          = some (ok2, na2) ∧
        (∀ i ∈ ok2, GoodId d i) ∧
        (∀ i ∈ na2, BadId d p0 i) ∧
        (na2.Nonempty → p0 ∈ na2) ∧
        ok ⊆ ok2 ∧ na ⊆ na2 ∧
        (∀ kv ∈ items, kv.1 ∈ ok2 ∨ kv.1 ∈ na2) := by
  intro items
  induction items with
  | nil =>
    intro ok na _ hok hna hnap0
    exact ⟨ok, na, rfl, hok, hna, hnap0, Finset.Subset.refl ok,
      Finset.Subset.refl na, by simp⟩
  | cons kv rest ih =>
    intro ok na hitems hok hna hnap0
    have hk1 : kv.1 ∈ d.map Prod.fst := hitems kv (List.mem_cons_self kv rest)
    obtain ⟨ok1, na1, heq1, hok1, hna1, hnap01, hsok1, hsna1, hcomp1⟩ :=
      walkOne_spec d rank x p0 hrk hx hp0 hp0n huniq (d.length + 1) kv.1
        [kv.1] ok na (Or.inl hk1) (List.mem_singleton_self kv.1)
        (fun hg t ht => by rcases List.mem_singleton.mp ht with rfl; exact hg)
        (fun hb t ht => by rcases List.mem_singleton.mp ht with rfl; exact hb)
        hok hna hnap0
        (fun hm => by have := hrb kv.1 hm; omega)
        (fun _ => by omega)
    obtain ⟨ok2, na2, heq2, hok2, hna2, hnap02, hsok2, hsna2, hcomp2⟩ :=
      ih ok1 na1 (fun kv2 h => hitems kv2 (List.mem_cons_of_mem kv h))
        hok1 hna1 hnap01
    refine ⟨ok2, na2, ?_, hok2, hna2, hnap02,
      Finset.Subset.trans hsok1 hsok2, Finset.Subset.trans hsna1 hsna2, ?_⟩
    · rw [List.foldlM_cons, heq1]
      exact heq2
    · intro kv2 hkv2
      rcases List.mem_cons.mp hkv2 with rfl | hkv2
      · rcases hcomp1 kv2.1 (List.mem_singleton_self kv2.1) with h | h
        · exact Or.inl (hsok2 h)
        · exact Or.inr (hsna2 h)
      · exact hcomp2 kv2 hkv2

/-- C8 (corrected). In a live tree with a single broken link `x ↦ p0`
(where `p0` is absent from the table) and a rank function witnessing
acyclicity and boundedness of the ancestor chains, `select_na_ids` returns
exactly the ids of the rows whose ancestor chain passes through `x`
TOGETHER WITH the absent parent id `p0` itself — not only the stored
descendants as the spec claims: the walk pushes the failing parent id onto
`temp` before the dict lookup raises `KeyError`, so `p0` lands in the
returned set as well (query.py, lines 876-914). -/
theorem c8_dangling_detection (db : List Row) (rank : Nat → Nat) (x p0 : Nat)
    (halive : ∀ r ∈ db, r.is_alive = true)
    (hzero : 0 ∉ (aliveParentPairs db).map Prod.fst)
    (hrk : ∀ kv ∈ aliveParentPairs db, kv.2 ≠ 0 →
      kv.2 ∈ (aliveParentPairs db).map Prod.fst → rank kv.2 < rank kv.1)
    (hrb : ∀ kv ∈ aliveParentPairs db,
      rank kv.1 + 1 ≤ (aliveParentPairs db).length)
    (hx : lookupPid (aliveParentPairs db) x = some p0) (hp0 : p0 ≠ 0)
    (hp0n : lookupPid (aliveParentPairs db) p0 = none)
    (huniq : ∀ kv ∈ aliveParentPairs db, kv.2 ≠ 0 →
      lookupPid (aliveParentPairs db) kv.2 = none → kv.1 = x) :
    ∃ s, select_na_ids db = some s ∧
      ∀ i, i ∈ s ↔ ((i ∈ (aliveParentPairs db).map Prod.fst ∧
        DescendantOf (aliveParentPairs db) x i) ∨ i = p0) := by
  set d := aliveParentPairs db with hd
  have hrk2 : ∀ k p, lookupPid d k = some p → p ≠ 0 → p ∈ d.map Prod.fst →
      rank p < rank k :=
    fun k p h hne hpk => hrk (k, p) (lookupPid_mem h) hne hpk
  have huniq2 : ∀ k p, lookupPid d k = some p → p ≠ 0 →
      lookupPid d p = none → k = x :=
    fun k p h hne hpn => huniq (k, p) (lookupPid_mem h) hne hpn
  have hrb2 : ∀ k ∈ d.map Prod.fst, rank k + 1 ≤ d.length := by
    intro k hk
    rcases List.mem_map.mp hk with ⟨kv, hkv, rfl⟩
    exact hrb kv hkv
  obtain ⟨ok2, na2, heq, hok2, hna2, hnap02, _, _, hcomp⟩ :=
    walk_fold_spec d rank x p0 hrk2 hx hp0 hp0n huniq2 hrb2 d ∅ ∅
      (fun kv hkv => List.mem_map.mpr ⟨kv, hkv, rfl⟩)
      (by simp) (by simp) (by simp)
  have hfilter : db.filter (fun r => !r.is_alive) = [] := by
    rw [List.filter_eq_nil_iff]
    intro r hr
    simp [halive r hr]
  refine ⟨na2, ?_, ?_⟩
  · simp only [select_na_ids, hfilter, List.map_nil, List.toFinset_nil, ← hd]
    rw [heq]
    rfl
  · intro i
    constructor
    · intro hi
      rcases hna2 i hi with ⟨hik, hdang⟩ | hip0
      · exact Or.inl ⟨hik, @dangling_to_desc d x p0 huniq2 i hdang⟩
      · exact Or.inr hip0
    · intro hi
      rcases hi with ⟨hik, hdesc⟩ | rfl
      · have hdang : Dangling d i := desc_to_dangling hzero hx hp0 hp0n hdesc
        rcases List.mem_map.mp hik with ⟨kv, hkv, rfl⟩
        rcases hcomp kv hkv with h | h
        · exact absurd hdang (reachesRoot_not_dangling (hok2 kv.1 h).2)
        · exact h
      · have hxmem : (x, i) ∈ d := lookupPid_mem hx
        rcases hcomp (x, i) hxmem with h | h
        · exact absurd (Dangling.base x i hx hp0 hp0n)
            (reachesRoot_not_dangling (hok2 x h).2)
        · exact hnap02 ⟨x, h⟩

/-- C8 counterexample: on a fixture where node 2 points at the absent
parent 5 (and node 3 hangs below node 2), `select_na_ids` returns the set
`{2, 3, 5}` — including the id 5, which is not the id of any stored row —
and not only the spec's set `{2, 3}` of stored dangling rows. -/
theorem c8_select_na_counterexample :
    (select_na_ids danglingDb).map
      (fun s => decide (5 ∈ s) && decide (2 ∈ s) && decide (3 ∈ s) &&
        !decide (1 ∈ s)) = some true ∧
    (5 : Nat) ∉ danglingDb.map Row.id := by
  decide

/-- Witness for the corrected C8 theorem at the dangling fixture, with the
rank function counting chain height and the broken link `2 ↦ 5`. -/
theorem c8_dangling_detection_witness :
    (∀ r ∈ danglingDb, r.is_alive = true) ∧
    lookupPid (aliveParentPairs danglingDb) 2 = some 5 ∧
    (∃ s, select_na_ids danglingDb = some s ∧
      ∀ i, i ∈ s ↔ ((i ∈ (aliveParentPairs danglingDb).map Prod.fst ∧
        DescendantOf (aliveParentPairs danglingDb) 2 i) ∨ i = 5)) :=
  ⟨by decide, by decide,
    c8_dangling_detection danglingDb (fun k => if k = 3 then 1 else 0) 2 5
      (by decide) (by decide) (by decide) (by decide) (by decide) (by decide)
      (by decide) (by decide)⟩
